import Mathlib

/-!
Lexis API: the `/detect` request pipeline and the configuration resolver.

A shallow embedding of `main.go`:

* Go strings are byte sequences (`GoString`), runes are code points (`Rune`);
  the conversions `[]rune(s)` and `string(runes)` used by the truncation step
  are embedded with Go's UTF-8 rules (an ill-formed byte decodes to
  `RuneError` with width one, a rune that is not a scalar value encodes as
  `RuneError`);
* `strconv.Atoi`, `strings.ToLower` as the Go standard library defines them
  (for `int` of 64 bits);
* the language detector, the body parser and the case tables of package
  `unicode` are the collaborators of the handler and are taken as values; the
  handler is stated over any type of language tokens, and the tokens of
  lingua-go (`Language`, with its names and ISO 639-1 codes) are given as one
  such type;
* `c.JSON` fails on a confidence that `encoding/json` does not encode; the
  handler then returns the error and fiber answers with status 500;
* the handler of `POST /detect` in `NewApp` returns, next to its outcome, the
  list of calls it made on the detector.
-/

namespace Lexis

/-! ## Go strings and runes -/

/-- A Go string: an immutable sequence of bytes. -/
abbrev GoString := List Nat

/-- A Go rune (a code point held in an `int32`); every rune that the handler
sees comes out of `[]rune(s)` and is therefore non-negative. -/
abbrev Rune := Nat

/-- Go `utf8.RuneError`, the replacement character U+FFFD. -/
def RuneError : Nat := 0xFFFD

/-- Go `utf8.RuneSelf`: bytes below it are single-byte runes. -/
def RuneSelf : Nat := 0x80

/-- A continuation byte `10xxxxxx`. -/
def isCont (b : Nat) : Bool := decide (0x80 ≤ b ∧ b ≤ 0xBF)

/-- Lower bound on the second byte of a sequence led by `b0` (the
`acceptRanges` table of package `utf8`). -/
def secondLo (b0 : Nat) : Nat :=
  if b0 = 0xE0 then 0xA0 else if b0 = 0xF0 then 0x90 else 0x80

/-- Upper bound on the second byte of a sequence led by `b0`. -/
def secondHi (b0 : Nat) : Nat :=
  if b0 = 0xED then 0x9F else if b0 = 0xF4 then 0x8F else 0xBF

/-- Go `utf8.DecodeRuneInString` on a non-empty string: the first rune and
its width in bytes.  An ill-formed or truncated sequence gives
`(RuneError, 1)`. -/
def decodeRune (s : GoString) : Nat × Nat :=
  match s with
  | [] => (RuneError, 0)
  | b0 :: rest =>
    if b0 < 0x80 then (b0, 1)
    else if 0xC2 ≤ b0 ∧ b0 ≤ 0xDF then
      match rest with
      | b1 :: _ =>
        if isCont b1 then ((b0 % 32) * 64 + b1 % 64, 2) else (RuneError, 1)
      | _ => (RuneError, 1)
    else if 0xE0 ≤ b0 ∧ b0 ≤ 0xEF then
      match rest with
      | b1 :: b2 :: _ =>
        if secondLo b0 ≤ b1 ∧ b1 ≤ secondHi b0 ∧ isCont b2 then
          ((b0 % 16) * 4096 + (b1 % 64) * 64 + b2 % 64, 3)
        else (RuneError, 1)
      | _ => (RuneError, 1)
    else if 0xF0 ≤ b0 ∧ b0 ≤ 0xF4 then
      match rest with
      | b1 :: b2 :: b3 :: _ =>
        if secondLo b0 ≤ b1 ∧ b1 ≤ secondHi b0 ∧ isCont b2 ∧ isCont b3 then
          ((b0 % 8) * 262144 + (b1 % 64) * 4096 + (b2 % 64) * 64 + b3 % 64, 4)
        else (RuneError, 1)
      | _ => (RuneError, 1)
    else (RuneError, 1)

/-- The loop of `[]rune(s)`: decode a rune, advance by its width. The first
argument bounds the number of iterations; a string of `n` bytes needs at most
`n`. -/
def stringToRunesAux : Nat → GoString → List Rune
  | 0, _ => []
  | _ + 1, [] => []
  | fuel + 1, b :: rest =>
    let d := decodeRune (b :: rest)
    d.1 :: stringToRunesAux fuel ((b :: rest).drop d.2)

/-- Go conversion `[]rune(s)`. -/
def stringToRunes (s : GoString) : List Rune := stringToRunesAux s.length s

/-- A rune that is a Unicode scalar value (what `utf8.ValidRune` accepts). -/
def validRune (r : Nat) : Bool := decide (r < 0xD800 ∨ (0xE000 ≤ r ∧ r ≤ 0x10FFFF))

/-- Go `utf8.EncodeRune` / `utf8.AppendRune`: the UTF-8 bytes of a rune; a
surrogate or a value above U+10FFFF is written as `RuneError`. -/
def encodeRune (r : Nat) : GoString :=
  if r < 0x80 then [r]
  else if r < 0x800 then [0xC0 + r / 64, 0x80 + r % 64]
  else if r > 0x10FFFF ∨ (0xD800 ≤ r ∧ r ≤ 0xDFFF) then [0xEF, 0xBF, 0xBD]
  else if r < 0x10000 then [0xE0 + r / 4096, 0x80 + (r / 64) % 64, 0x80 + r % 64]
  else [0xF0 + r / 262144, 0x80 + (r / 4096) % 64, 0x80 + (r / 64) % 64, 0x80 + r % 64]

/-- Go conversion `string(runes)`. -/
def runesToString (rs : List Rune) : GoString := rs.flatMap encodeRune

/-- Go `utf8.ValidString`: no decoding step meets an ill-formed sequence. -/
def validStringAux : Nat → GoString → Bool
  | 0, s => s.isEmpty
  | _ + 1, [] => true
  | fuel + 1, b :: rest =>
    let d := decodeRune (b :: rest)
    if d.1 = RuneError ∧ d.2 = 1 then false
    else validStringAux fuel ((b :: rest).drop d.2)

/-- Go `utf8.ValidString`. -/
def ValidString (s : GoString) : Bool := validStringAux s.length s

/-- A Go string literal: the UTF-8 bytes of the source text. -/
def goString (s : String) : GoString := runesToString (s.data.map Char.toNat)

/-! ## `strconv.Atoi` and the configuration resolver -/

/-- The digit loop of `strconv.Atoi`: the value of a run of decimal digits on
top of `acc`, or `none` at the first byte that is not a digit. -/
def parseDigits : GoString → Nat → Option Nat
  | [], acc => some acc
  | c :: cs, acc =>
    if 48 ≤ c ∧ c ≤ 57 then parseDigits cs (acc * 10 + (c - 48)) else none

/-- Go `strconv.Atoi` for a 64-bit `int`: an optional sign, then one or more
decimal digits, and a value that fits `int`; `none` stands for a non-nil
error (syntax or range). -/
def Atoi (s : GoString) : Option Int :=
  match s with
  | [] => none
  | c :: rest =>
    let digits := if c = 45 ∨ c = 43 then rest else c :: rest
    if digits.isEmpty then none
    else
      match parseDigits digits 0 with
      | none => none
      | some n =>
        let v : Int := if c = 45 then -(n : Int) else (n : Int)
        if -(2 : Int) ^ 63 ≤ v ∧ v ≤ (2 : Int) ^ 63 - 1 then some v else none

/-- Constant `DefaultMaxCharProcess`. -/
def DefaultMaxCharProcess : Int := 1000

/-- Go `os.Getenv` on one variable: its value, or the empty string when the
variable is not set. -/
def Getenv (value : Option GoString) : GoString := value.getD []

/-- The value of `maxCharProcess` that `main` passes to `NewApp`, from the
environment variable `MAX_CHAR_PROCESS` (`none` when it is not set). -/
def main_maxCharProcess (MAX_CHAR_PROCESS : Option GoString) : Int :=
  let maxCharProcess := DefaultMaxCharProcess
  let val := Getenv MAX_CHAR_PROCESS
  if val ≠ [] then
    match Atoi val with
    | some parsed => parsed
    | none => maxCharProcess
  else maxCharProcess

/-! ## `strings.ToLower` -/

/-- An ASCII upper-case letter `'A'..'Z'`. -/
def isUpperASCII (c : Nat) : Bool := decide (65 ≤ c ∧ c ≤ 90)

/-- Go `unicode.ToLower`: ASCII letters by arithmetic, every other rune by the
case tables of package `unicode`, which are taken as the function
`caseTable`. -/
def unicodeToLower (caseTable : Nat → Nat) (r : Nat) : Nat :=
  if r ≤ 0x7F then (if isUpperASCII r then r + 32 else r) else caseTable r

/-- Go `strings.ToLower`: a string of ASCII bytes is mapped byte by byte (and
returned as it is when it has no upper-case letter); any other string goes
through `strings.Map(unicode.ToLower, s)`, which re-encodes the mapped
runes. -/
def ToLower (caseTable : Nat → Nat) (s : GoString) : GoString :=
  if s.all (fun c => decide (c < RuneSelf)) then
    if s.any isUpperASCII then s.map (fun c => if isUpperASCII c then c + 32 else c)
    else s
  else runesToString ((stringToRunes s).map (unicodeToLower caseTable))

/-! ## The handler of `POST /detect` -/

/-- A `float64`, carried by its IEEE-754 bit pattern (sign, eleven bits of
exponent, fifty-two bits of mantissa); the handler passes confidence values
on and the JSON encoder looks at them. -/
structure Float64 where
  bits : Nat
  deriving DecidableEq, Repr

/-- The constant `0.0`. -/
def Float64.zero : Float64 := ⟨0⟩

/-- The value of `math.NaN()`. -/
def Float64.NaN : Float64 := ⟨0x7FF8000000000001⟩

/-- The value of `math.Inf(1)`. -/
def Float64.Inf : Float64 := ⟨0x7FF0000000000000⟩

/-- The exponent field of a `float64`. -/
def Float64.exponent (f : Float64) : Nat := (f.bits / 2 ^ 52) % 2048

/-- The mantissa field of a `float64`. -/
def Float64.mantissa (f : Float64) : Nat := f.bits % 2 ^ 52

/-- Go `math.IsNaN`. -/
def IsNaN (f : Float64) : Bool := decide (f.exponent = 2047 ∧ f.mantissa ≠ 0)

/-- Go `math.IsInf(f, 0)`: plus or minus infinity. -/
def IsInf (f : Float64) : Bool := decide (f.exponent = 2047 ∧ f.mantissa = 0)

/-- Whether `json.Marshal` accepts a `LanguageDetectionResponse` with this
confidence: the encoder of `encoding/json` returns an `UnsupportedValueError`
for a `float64` that is infinite or not a number, and encodes every other
value; the two string fields are always encoded. -/
def jsonEncodable (f : Float64) : Bool := !(IsInf f || IsNaN f)

/-- The request DTO `LanguageDetectionRequest`. -/
structure LanguageDetectionRequest where
  Text : GoString
  deriving DecidableEq, Repr

/-- The response DTO `LanguageDetectionResponse` (JSON keys `iso_code`,
`language`, `confidence`). -/
structure LanguageDetectionResponse where
  ISOCode : GoString
  Language : GoString
  Confidence : Float64
  deriving DecidableEq, Repr

/-- The two methods of `lingua.LanguageDetector` that the handler calls. -/
structure LanguageDetector (Lang : Type) where
  DetectLanguageOf : GoString → Lang × Bool
  ComputeLanguageConfidence : GoString → Lang → Float64

/-- What the handler uses from its libraries: `c.BodyParser(req)` of fiber
(`none` when it returns an error, otherwise the request it filled in), the
two string methods of a `lingua.Language`, and the case tables behind
`unicode.ToLower`. -/
structure Externals (Body Lang : Type) where
  BodyParser : Body → Option LanguageDetectionRequest
  IsoCode639_1_String : Lang → GoString
  String : Lang → GoString
  caseTable : Nat → Nat

/-- A call on the detector. -/
inductive Call (Lang : Type) where
  | DetectLanguageOf (text : GoString)
  | ComputeLanguageConfidence (text : GoString) (language : Lang)
  deriving DecidableEq, Repr

/-- The text argument of a call on the detector. -/
def Call.text {Lang : Type} : Call Lang → GoString
  | .DetectLanguageOf t => t
  | .ComputeLanguageConfidence t _ => t

/-- The body of a response: a `fiber.Map` with the keys `error` and `code`, a
serialized `LanguageDetectionResponse`, or the text that fiber's error handler
writes. -/
inductive ResponseBody where
  | errorMap (error : String) (code : String)
  | detection (r : LanguageDetectionResponse)
  | errorText
  deriving DecidableEq, Repr

/-- An HTTP response: status code and body. -/
structure Response where
  status : Nat
  body : ResponseBody
  deriving DecidableEq, Repr

/-- How a run of the handler ends: with a response, with a run-time panic
(slice bounds out of range), or with the error that `c.JSON` returned and
the handler returned in turn, no response written. -/
inductive Outcome where
  | responded (r : Response)
  | panicked
  | returnedError
  deriving DecidableEq, Repr

/-- A run of the handler: the calls made on the detector, in order, and the
outcome. -/
structure Run (Lang : Type) where
  calls : List (Call Lang)
  outcome : Outcome

/-- The slice expression `runes[:hi]`: `none` is the panic "slice bounds out
of range". Go checks `hi` against `cap(runes)`, which is at least
`len(runes)`; the handler only slices under `len(runes) > hi`, where the two
checks agree. -/
def sliceTo (runes : List Rune) (hi : Int) : Option (List Rune) :=
  if 0 ≤ hi ∧ hi ≤ (runes.length : Int) then some (runes.take hi.toNat) else none

/-- The truncation step of the handler (the value of `textToProcess` when the
detector is called), `none` when the slice expression panics. -/
def textToProcess (maxCharProcess : Int) (text : GoString) : Option GoString :=
  let runes := stringToRunes text
  if (runes.length : Int) > maxCharProcess then
    (sliceTo runes maxCharProcess).map runesToString
  else some text

/-- The handler that `NewApp` registers for `POST /detect`. A JSON response
is its status and the value that is serialized. `c.JSON` of a `fiber.Map` of
two strings always succeeds; `c.JSON` of the `LanguageDetectionResponse`
returns the encoder's error when the confidence is not encodable, and the
handler returns that error. -/
def detectHandler {Body Lang : Type} (ext : Externals Body Lang)
    (detector : LanguageDetector Lang) (maxCharProcess : Int) (body : Body) : Run Lang :=
  match ext.BodyParser body with
  | none =>
    ⟨[], .responded ⟨400, .errorMap "Invalid JSON format" "INVALID_JSON"⟩⟩
  | some req =>
    if req.Text.length = 0 then
      ⟨[], .responded ⟨400, .errorMap "Description cannot be empty" "EMPTY_TEXT"⟩⟩
    else
      match textToProcess maxCharProcess req.Text with
      | none => ⟨[], .panicked⟩
      | some textToProcess =>
        let detected := detector.DetectLanguageOf textToProcess
        let language := detected.1
        let found := detected.2
        if found then
          let rsp_isoCode := ext.IsoCode639_1_String language
          let rsp_language := ext.String language
          let rsp_confidence := detector.ComputeLanguageConfidence textToProcess language
          if jsonEncodable rsp_confidence then
            ⟨[.DetectLanguageOf textToProcess,
               .ComputeLanguageConfidence textToProcess language],
              .responded ⟨200, .detection
                { ISOCode := ToLower ext.caseTable rsp_isoCode
                  Language := ToLower ext.caseTable rsp_language
                  Confidence := rsp_confidence }⟩⟩
          else
            ⟨[.DetectLanguageOf textToProcess,
               .ComputeLanguageConfidence textToProcess language],
              .returnedError⟩
        else
          ⟨[.DetectLanguageOf textToProcess],
            .responded ⟨400, .errorMap
              "Could not detect language with sufficient confidence" "DETECTION_FAILED"⟩⟩

/-- The route as fiber serves it: a panic of the handler is caught by the
`recover` middleware and turned into an error, and an error that the handler
returns, like that one, becomes the response of fiber's default error
handler, status 500 with the text of the error. -/
def serveDetect {Body Lang : Type} (ext : Externals Body Lang)
    (detector : LanguageDetector Lang) (maxCharProcess : Int) (body : Body) : Response :=
  match (detectHandler ext detector maxCharProcess body).outcome with
  | .responded r => r
  | .panicked => ⟨500, .errorText⟩
  | .returnedError => ⟨500, .errorText⟩

/-! ## The language tokens of lingua-go -/

/-- A `lingua.Language`: an `int`; the constants `Afrikaans` .. `Zulu` are
0 .. 74 and `Unknown` is 75. -/
abbrev Language := Int

/-- The languages of lingua-go in the order of their constants, each with the
name of its constant and the name of the `IsoCode639_1` constant that
`Language.IsoCode639_1` returns for it. -/
def languageTable : List (String × String) :=
  [("Afrikaans", "AF"), ("Albanian", "SQ"), ("Arabic", "AR"), ("Armenian", "HY"),
   ("Azerbaijani", "AZ"), ("Basque", "EU"), ("Belarusian", "BE"), ("Bengali", "BN"),
   ("Bokmal", "NB"), ("Bosnian", "BS"), ("Bulgarian", "BG"), ("Catalan", "CA"),
   ("Chinese", "ZH"), ("Croatian", "HR"), ("Czech", "CS"), ("Danish", "DA"),
   ("Dutch", "NL"), ("English", "EN"), ("Esperanto", "EO"), ("Estonian", "ET"),
   ("Finnish", "FI"), ("French", "FR"), ("Ganda", "LG"), ("Georgian", "KA"),
   ("German", "DE"), ("Greek", "EL"), ("Gujarati", "GU"), ("Hebrew", "HE"),
   ("Hindi", "HI"), ("Hungarian", "HU"), ("Icelandic", "IS"), ("Indonesian", "ID"),
   ("Irish", "GA"), ("Italian", "IT"), ("Japanese", "JA"), ("Kazakh", "KK"),
   ("Korean", "KO"), ("Latin", "LA"), ("Latvian", "LV"), ("Lithuanian", "LT"),
   ("Macedonian", "MK"), ("Malay", "MS"), ("Maori", "MI"), ("Marathi", "MR"),
   ("Mongolian", "MN"), ("Nynorsk", "NN"), ("Persian", "FA"), ("Polish", "PL"),
   ("Portuguese", "PT"), ("Punjabi", "PA"), ("Romanian", "RO"), ("Russian", "RU"),
   ("Serbian", "SR"), ("Shona", "SN"), ("Slovak", "SK"), ("Slovene", "SL"),
   ("Somali", "SO"), ("Sotho", "ST"), ("Spanish", "ES"), ("Swahili", "SW"),
   ("Swedish", "SV"), ("Tagalog", "TL"), ("Tamil", "TA"), ("Telugu", "TE"),
   ("Thai", "TH"), ("Tsonga", "TS"), ("Tswana", "TN"), ("Turkish", "TR"),
   ("Ukrainian", "UK"), ("Urdu", "UR"), ("Vietnamese", "VI"), ("Welsh", "CY"),
   ("Xhosa", "XH"), ("Yoruba", "YO"), ("Zulu", "ZU")]

/-- The constant `lingua.English`. -/
def English : Language := 17

/-- The constant `lingua.Unknown`. -/
def Unknown : Language := 75

/-- The digit loop of `strconv.FormatInt` in base ten: the digits of `n`, most
significant first, in front of `acc`. The first argument bounds the number of
digits. -/
def formatDigits : Nat → Nat → GoString → GoString
  | 0, _, acc => acc
  | fuel + 1, n, acc =>
    if n / 10 = 0 then (48 + n % 10) :: acc
    else formatDigits fuel (n / 10) ((48 + n % 10) :: acc)

/-- Go `strconv.FormatInt(i, 10)`. -/
def FormatInt (i : Int) : GoString :=
  if i < 0 then 45 :: formatDigits (i.natAbs + 1) i.natAbs []
  else formatDigits (i.natAbs + 1) i.natAbs []

/-- The method `String` of `lingua.Language`, as `stringer` generates it:
the name of the constant, and `Language(n)` for an `int` that is none of the
constants. -/
def Language_String (l : Language) : GoString :=
  if l < 0 then goString "Language(" ++ FormatInt l ++ goString ")"
  else
    match languageTable.get? l.toNat with
    | some entry => goString entry.1
    | none =>
      if l = Unknown then goString "Unknown"
      else goString "Language(" ++ FormatInt l ++ goString ")"

/-- The expression `language.IsoCode639_1().String()`: the method
`IsoCode639_1` returns the code of a language and `UnknownIsoCode639_1` for
every other value, and `String` gives the name of that constant. -/
def Language_IsoCode639_1_String (l : Language) : GoString :=
  if l < 0 then goString "UnknownIsoCode639_1"
  else
    match languageTable.get? l.toNat with
    | some entry => goString entry.2
    | none => goString "UnknownIsoCode639_1"

/-- The libraries with the language tokens of lingua-go; the body parser and
the case tables stay values. -/
def linguaExternals {Body : Type} (BodyParser : Body → Option LanguageDetectionRequest)
    (caseTable : Nat → Nat) : Externals Body Language where
  BodyParser := BodyParser
  IsoCode639_1_String := Language_IsoCode639_1_String
  String := Language_String
  caseTable := caseTable

/-! ## Sample collaborators

Concrete values on which the statements below are evaluated. -/

/-- A few language tokens, with the strings that lingua-go gives them: the
name of the language and its upper-case ISO 639-1 code. -/
inductive SampleLanguage where
  | English
  | Spanish
  | Arabic
  | Unknown
  deriving DecidableEq, Repr

/-- The `String()` of a sample token. -/
def SampleLanguage.name : SampleLanguage → GoString
  | .English => goString "English"
  | .Spanish => goString "Spanish"
  | .Arabic => goString "Arabic"
  | .Unknown => goString "Unknown"

/-- The `IsoCode639_1().String()` of a sample token. -/
def SampleLanguage.isoCode : SampleLanguage → GoString
  | .English => goString "EN"
  | .Spanish => goString "ES"
  | .Arabic => goString "AR"
  | .Unknown => goString "UnknownIsoCode639_1"

/-- Sample libraries: the body is given already parsed (`none` for a body
that `BodyParser` rejects); the case table is never consulted for ASCII
strings. -/
def sampleExternals : Externals (Option LanguageDetectionRequest) SampleLanguage where
  BodyParser := fun body => body
  IsoCode639_1_String := SampleLanguage.isoCode
  String := SampleLanguage.name
  caseTable := fun r => r

/-- A detector that answers every text with the same language, flag and
confidence. -/
def constDetector (language : SampleLanguage) (found : Bool) (confidence : Float64) :
    LanguageDetector SampleLanguage where
  DetectLanguageOf := fun _ => (language, found)
  ComputeLanguageConfidence := fun _ _ => confidence

/-- A detector, for any type of language tokens, that answers every text with
the same language, flag and confidence. -/
def fixedDetector {Lang : Type} (language : Lang) (found : Bool) (confidence : Float64) :
    LanguageDetector Lang where
  DetectLanguageOf := fun _ => (language, found)
  ComputeLanguageConfidence := fun _ _ => confidence

/-- A case table for the letters of Latin-1: `À` .. `Þ` without `×` go to
`à` .. `þ`; every other rune is left as it is. -/
def latin1CaseTable (r : Nat) : Nat :=
  if 0xC0 ≤ r ∧ r ≤ 0xDE ∧ r ≠ 0xD7 then r + 32 else r

/-- A detector that records nothing and finds English when the text starts
with an ASCII letter, and nothing otherwise. -/
def asciiDetector : LanguageDetector SampleLanguage where
  DetectLanguageOf := fun t =>
    match t with
    | c :: _ => if (65 ≤ c ∧ c ≤ 90) ∨ (97 ≤ c ∧ c ≤ 122) then (.English, true)
                else (.Unknown, false)
    | [] => (.Unknown, false)
  ComputeLanguageConfidence := fun t _ => ⟨t.length⟩

/-! ## The conversions on small strings -/

theorem stringToRunes_mixed_widths :
    stringToRunes [0x48, 0xC3, 0xA9, 0xE3, 0x81, 0x93, 0xF0, 0x9F, 0x98, 0x80] =
      [0x48, 0xE9, 0x3053, 0x1F600] := by decide

theorem stringToRunes_cut_sequence : stringToRunes [0xE3, 0x81] = [RuneError, RuneError] := by
  decide

theorem runesToString_mixed_widths :
    runesToString [0x48, 0xE9, 0x3053, 0x1F600] =
      [0x48, 0xC3, 0xA9, 0xE3, 0x81, 0x93, 0xF0, 0x9F, 0x98, 0x80] := by decide

theorem Atoi_samples :
    Atoi (goString "42") = some 42 ∧ Atoi (goString "+7") = some 7 ∧
    Atoi (goString "-1") = some (-1) ∧ Atoi (goString "") = none ∧
    Atoi (goString "-") = none ∧ Atoi (goString "12a") = none ∧
    Atoi (goString "1_000") = none ∧
    Atoi (goString "9223372036854775807") = some 9223372036854775807 ∧
    Atoi (goString "9223372036854775808") = none := by decide

/-! ## Facts about the UTF-8 conversions -/

theorem decodeRune_width (b : Nat) (rest : GoString) :
    1 ≤ (decodeRune (b :: rest)).2 ∧ (decodeRune (b :: rest)).2 ≤ 4 := by
  unfold decodeRune
  simp only
  split_ifs <;> (repeat (first | split | split_ifs)) <;> simp

theorem decodeRune_validRune (s : GoString) : validRune (decodeRune s).1 = true := by
  unfold decodeRune
  cases s with
  | nil => decide
  | cons b0 rest =>
    simp only
    split_ifs with h1 h2 h3 h4
    · simp only [validRune, decide_eq_true_eq]; omega
    · cases rest with
      | nil => simp only; decide
      | cons b1 t =>
        simp only [isCont]
        split_ifs with h5
        · simp only [decide_eq_true_eq] at h5
          simp only [validRune, decide_eq_true_eq]; omega
        · decide
    · rcases rest with _ | ⟨b1, _ | ⟨b2, t⟩⟩
      · simp only; decide
      · simp only; decide
      · simp only [isCont, secondLo, secondHi]
        split_ifs with h5 h6 h7 h8 h9 h10 h11 <;>
          simp only [validRune, RuneError, decide_eq_true_eq] at * <;> omega
    · rcases rest with _ | ⟨b1, _ | ⟨b2, _ | ⟨b3, t⟩⟩⟩
      · simp only; decide
      · simp only; decide
      · simp only; decide
      · simp only [isCont, secondLo, secondHi]
        split_ifs with h5 h6 h7 h8 h9 h10 h11 <;>
          simp only [validRune, RuneError, decide_eq_true_eq] at * <;> omega
    · decide
theorem stringToRunesAux_fuel (f1 : Nat) : ∀ (f2 : Nat) (s : GoString),
    s.length ≤ f1 → s.length ≤ f2 → stringToRunesAux f1 s = stringToRunesAux f2 s := by
  induction f1 with
  | zero =>
    intro f2 s h1 _
    have hs : s = [] := List.length_eq_zero.mp (Nat.le_zero.mp h1)
    subst hs
    cases f2 <;> rfl
  | succ n ih =>
    intro f2 s h1 h2
    cases s with
    | nil => cases f2 <;> rfl
    | cons b rest =>
      cases f2 with
      | zero => simp at h2
      | succ m =>
        have hw := decodeRune_width b rest
        simp only [stringToRunesAux]
        congr 1
        apply ih <;> simp only [List.length_drop, List.length_cons] at * <;> omega

theorem stringToRunes_nil : stringToRunes [] = [] := rfl

theorem stringToRunes_cons (b : Nat) (rest : GoString) :
    stringToRunes (b :: rest) =
      (decodeRune (b :: rest)).1 :: stringToRunes ((b :: rest).drop (decodeRune (b :: rest)).2) := by
  have hw := decodeRune_width b rest
  simp only [stringToRunes, List.length_cons, stringToRunesAux]
  congr 1
  apply stringToRunesAux_fuel <;> simp only [List.length_drop, List.length_cons] <;> omega

/-- Induction along the decoding loop: a property that holds of the empty
string and passes from the rest after the first rune to the whole string holds
of every string. -/
theorem decode_induction {P : GoString → Prop} (hnil : P [])
    (hcons : ∀ (b : Nat) (rest : GoString),
      P ((b :: rest).drop (decodeRune (b :: rest)).2) → P (b :: rest)) :
    ∀ s : GoString, P s := by
  have key : ∀ (n : Nat) (s : GoString), s.length ≤ n → P s := by
    intro n
    induction n with
    | zero =>
      intro s hs
      have : s = [] := List.length_eq_zero.mp (Nat.le_zero.mp hs)
      subst this; exact hnil
    | succ n ih =>
      intro s hs
      cases s with
      | nil => exact hnil
      | cons b rest =>
        have hw := decodeRune_width b rest
        apply hcons
        apply ih
        simp only [List.length_drop, List.length_cons] at *; omega
  intro s
  exact key s.length s (Nat.le_refl _)

theorem stringToRunes_validRune (s : GoString) : ∀ r ∈ stringToRunes s, validRune r = true := by
  induction s using decode_induction with
  | hnil => simp [stringToRunes_nil]
  | hcons b rest ih =>
    rw [stringToRunes_cons]
    intro r hr
    rcases List.mem_cons.mp hr with rfl | hr
    · exact decodeRune_validRune _
    · exact ih r hr

theorem decodeRune_encodeRune (r : Nat) (t : GoString) (hr : validRune r = true) :
    decodeRune (encodeRune r ++ t) = (r, (encodeRune r).length) := by
  simp only [validRune, decide_eq_true_eq] at hr
  unfold encodeRune
  split_ifs with h1 h2 h3 h4
  · simp [decodeRune, h1]
  · have e1 : ¬ (192 + r / 64 < 128) := by omega
    have e2 : 194 ≤ 192 + r / 64 ∧ 192 + r / 64 ≤ 223 := by omega
    have e3 : isCont (128 + r % 64) = true := by simp [isCont]; omega
    simp only [decodeRune, List.cons_append, List.nil_append, e1, e2, e3, if_true, if_false,
      and_self, List.length_cons, List.length_nil]
    congr 1; omega
  · omega
  · have e1 : ¬ (224 + r / 4096 < 128) := by omega
    have e2 : ¬ (194 ≤ 224 + r / 4096 ∧ 224 + r / 4096 ≤ 223) := by omega
    have e3 : 224 ≤ 224 + r / 4096 ∧ 224 + r / 4096 ≤ 239 := by omega
    have e4 : secondLo (224 + r / 4096) ≤ 128 + r / 64 % 64 ∧
        128 + r / 64 % 64 ≤ secondHi (224 + r / 4096) ∧ isCont (128 + r % 64) = true := by
      simp only [secondLo, secondHi, isCont, decide_eq_true_eq]
      split_ifs <;> omega
    simp only [decodeRune, List.cons_append, List.nil_append, e1, e2, e3, e4, if_true, if_false,
      and_self, List.length_cons, List.length_nil]
    congr 1; omega
  · have e1 : ¬ (240 + r / 262144 < 128) := by omega
    have e2 : ¬ (194 ≤ 240 + r / 262144 ∧ 240 + r / 262144 ≤ 223) := by omega
    have e3 : ¬ (224 ≤ 240 + r / 262144 ∧ 240 + r / 262144 ≤ 239) := by omega
    have e4 : 240 ≤ 240 + r / 262144 ∧ 240 + r / 262144 ≤ 244 := by omega
    have e5 : secondLo (240 + r / 262144) ≤ 128 + r / 4096 % 64 ∧
        128 + r / 4096 % 64 ≤ secondHi (240 + r / 262144) ∧
        isCont (128 + r / 64 % 64) = true ∧ isCont (128 + r % 64) = true := by
      simp only [secondLo, secondHi, isCont, decide_eq_true_eq]
      split_ifs <;> omega
    simp only [decodeRune, List.cons_append, List.nil_append, e1, e2, e3, e4, e5, if_true,
      if_false, and_self, List.length_cons, List.length_nil]
    congr 1; omega

theorem encodeRune_length (r : Nat) : 1 ≤ (encodeRune r).length := by
  unfold encodeRune
  split_ifs <;> simp

theorem stringToRunes_encodeRune_append (r : Nat) (t : GoString) (hr : validRune r = true) :
    stringToRunes (encodeRune r ++ t) = r :: stringToRunes t := by
  have hl := encodeRune_length r
  have hd := decodeRune_encodeRune r t hr
  cases h : encodeRune r with
  | nil => rw [h] at hl; simp at hl
  | cons b rest =>
    rw [h] at hd
    rw [List.cons_append, stringToRunes_cons]
    rw [List.cons_append] at hd
    rw [hd]
    simp only
    rw [← List.cons_append, List.drop_left]

/-- Decoding `string(runes)` gives the runes back when every rune is a scalar
value. -/
theorem stringToRunes_runesToString (rs : List Rune) (h : ∀ r ∈ rs, validRune r = true) :
    stringToRunes (runesToString rs) = rs := by
  induction rs with
  | nil => rfl
  | cons r rs ih =>
    simp only [runesToString, List.flatMap_cons]
    rw [stringToRunes_encodeRune_append r _ (h r (List.mem_cons_self _ _))]
    congr 1
    exact ih (fun x hx => h x (List.mem_cons_of_mem _ hx))

theorem encodeRune_decodeRune (b : Nat) (rest : GoString)
    (h : ¬ ((decodeRune (b :: rest)).1 = RuneError ∧ (decodeRune (b :: rest)).2 = 1)) :
    encodeRune (decodeRune (b :: rest)).1 = (b :: rest).take (decodeRune (b :: rest)).2 := by
  revert h
  unfold decodeRune
  simp only
  split_ifs with h1 h2 h3 h4
  · intro _; simp [encodeRune, h1]
  · cases rest with
    | nil => simp
    | cons b1 t =>
      simp only [isCont]
      split_ifs with h5
      · intro _
        simp only [decide_eq_true_eq] at h5
        have e1 : ¬ (b % 32 * 64 + b1 % 64 < 128) := by omega
        have e2 : b % 32 * 64 + b1 % 64 < 2048 := by omega
        simp only [encodeRune, e1, e2, if_true, if_false, List.take_succ_cons, List.take_zero]
        congr 1
        · omega
        · congr 1; omega
      · simp
  · rcases rest with _ | ⟨b1, _ | ⟨b2, t⟩⟩
    · simp
    · simp
    · simp only [isCont]
      split_ifs with h5
      · intro _
        simp only [secondLo, secondHi, decide_eq_true_eq] at h5
        have e1 : ¬ (b % 16 * 4096 + b1 % 64 * 64 + b2 % 64 < 128) := by
          split_ifs at h5 <;> omega
        have e2 : ¬ (b % 16 * 4096 + b1 % 64 * 64 + b2 % 64 < 2048) := by
          split_ifs at h5 <;> omega
        have e3 : ¬ (b % 16 * 4096 + b1 % 64 * 64 + b2 % 64 > 1114111 ∨
            (55296 ≤ b % 16 * 4096 + b1 % 64 * 64 + b2 % 64 ∧
              b % 16 * 4096 + b1 % 64 * 64 + b2 % 64 ≤ 57343)) := by
          split_ifs at h5 <;> omega
        have e4 : b % 16 * 4096 + b1 % 64 * 64 + b2 % 64 < 65536 := by omega
        simp only [encodeRune, e1, e2, e3, e4, if_true, if_false, List.take_succ_cons,
          List.take_zero]
        have q1 : 224 + (b % 16 * 4096 + b1 % 64 * 64 + b2 % 64) / 4096 = b := by
          split_ifs at h5 <;> omega
        have q2 : 128 + (b % 16 * 4096 + b1 % 64 * 64 + b2 % 64) / 64 % 64 = b1 := by
          split_ifs at h5 <;> omega
        have q3 : 128 + (b % 16 * 4096 + b1 % 64 * 64 + b2 % 64) % 64 = b2 := by
          split_ifs at h5 <;> omega
        rw [q1, q2, q3]
      · simp
  · rcases rest with _ | ⟨b1, _ | ⟨b2, _ | ⟨b3, t⟩⟩⟩
    · simp
    · simp
    · simp
    · simp only [isCont]
      split_ifs with h5
      · intro _
        simp only [secondLo, secondHi, decide_eq_true_eq] at h5
        have e1 : ¬ (b % 8 * 262144 + b1 % 64 * 4096 + b2 % 64 * 64 + b3 % 64 < 128) := by
          split_ifs at h5 <;> omega
        have e2 : ¬ (b % 8 * 262144 + b1 % 64 * 4096 + b2 % 64 * 64 + b3 % 64 < 2048) := by
          split_ifs at h5 <;> omega
        have e3 : ¬ (b % 8 * 262144 + b1 % 64 * 4096 + b2 % 64 * 64 + b3 % 64 > 1114111 ∨
            (55296 ≤ b % 8 * 262144 + b1 % 64 * 4096 + b2 % 64 * 64 + b3 % 64 ∧
              b % 8 * 262144 + b1 % 64 * 4096 + b2 % 64 * 64 + b3 % 64 ≤ 57343)) := by
          split_ifs at h5 <;> omega
        have e4 : ¬ (b % 8 * 262144 + b1 % 64 * 4096 + b2 % 64 * 64 + b3 % 64 < 65536) := by
          split_ifs at h5 <;> omega
        simp only [encodeRune, e1, e2, e3, e4, if_true, if_false, List.take_succ_cons,
          List.take_zero]
        have q1 : 240 + (b % 8 * 262144 + b1 % 64 * 4096 + b2 % 64 * 64 + b3 % 64) / 262144
            = b := by
          split_ifs at h5 <;> omega
        have q2 : 128 + (b % 8 * 262144 + b1 % 64 * 4096 + b2 % 64 * 64 + b3 % 64) / 4096 % 64
            = b1 := by
          split_ifs at h5 <;> omega
        have q3 : 128 + (b % 8 * 262144 + b1 % 64 * 4096 + b2 % 64 * 64 + b3 % 64) / 64 % 64
            = b2 := by
          split_ifs at h5 <;> omega
        have q4 : 128 + (b % 8 * 262144 + b1 % 64 * 4096 + b2 % 64 * 64 + b3 % 64) % 64
            = b3 := by
          split_ifs at h5 <;> omega
        rw [q1, q2, q3, q4]
      · simp
  · simp

theorem validStringAux_fuel (f1 : Nat) : ∀ (f2 : Nat) (s : GoString),
    s.length ≤ f1 → s.length ≤ f2 → validStringAux f1 s = validStringAux f2 s := by
  induction f1 with
  | zero =>
    intro f2 s h1 _
    have hs : s = [] := List.length_eq_zero.mp (Nat.le_zero.mp h1)
    subst hs
    cases f2 <;> rfl
  | succ n ih =>
    intro f2 s h1 h2
    cases s with
    | nil => cases f2 <;> rfl
    | cons b rest =>
      cases f2 with
      | zero => simp at h2
      | succ m =>
        have hw := decodeRune_width b rest
        simp only [validStringAux]
        split_ifs
        · rfl
        · apply ih <;> simp only [List.length_drop, List.length_cons] at * <;> omega

theorem ValidString_cons (b : Nat) (rest : GoString) :
    ValidString (b :: rest) =
      if (decodeRune (b :: rest)).1 = RuneError ∧ (decodeRune (b :: rest)).2 = 1 then false
      else ValidString ((b :: rest).drop (decodeRune (b :: rest)).2) := by
  have hw := decodeRune_width b rest
  simp only [ValidString, List.length_cons, validStringAux]
  split_ifs
  · rfl
  · apply validStringAux_fuel <;> simp only [List.length_drop, List.length_cons] <;> omega

/-- Encoding `[]rune(s)` gives `s` back when `s` is valid UTF-8. -/
theorem runesToString_stringToRunes (s : GoString) (h : ValidString s = true) :
    runesToString (stringToRunes s) = s := by
  induction s using decode_induction with
  | hnil => rfl
  | hcons b rest ih =>
    rw [ValidString_cons] at h
    split_ifs at h with hbad
    rw [stringToRunes_cons]
    simp only [runesToString, List.flatMap_cons]
    rw [encodeRune_decodeRune b rest hbad]
    have := ih h
    simp only [runesToString] at this
    rw [this, List.take_append_drop]

theorem stringToRunes_eq_nil (s : GoString) : stringToRunes s = [] ↔ s = [] := by
  constructor
  · intro h
    cases s with
    | nil => rfl
    | cons b rest => rw [stringToRunes_cons] at h; simp at h
  · intro h; subst h; rfl

theorem validRune_of_mem_take (s : GoString) (n : Nat) :
    ∀ r ∈ (stringToRunes s).take n, validRune r = true :=
  fun r hr => stringToRunes_validRune s r (List.mem_of_mem_take hr)

/-- Truncating the runes of a string and converting back loses nothing: the
result decodes to exactly the runes that were kept. -/
theorem stringToRunes_truncated (s : GoString) (n : Nat) :
    stringToRunes (runesToString ((stringToRunes s).take n)) = (stringToRunes s).take n :=
  stringToRunes_runesToString _ (validRune_of_mem_take s n)

theorem ValidString_runesToString (rs : List Rune) (h : ∀ r ∈ rs, validRune r = true) :
    ValidString (runesToString rs) = true := by
  induction rs with
  | nil => rfl
  | cons r rs ih =>
    have hr := h r (List.mem_cons_self _ _)
    have hl := encodeRune_length r
    have hd := decodeRune_encodeRune r (runesToString rs) hr
    simp only [runesToString, List.flatMap_cons] at *
    cases he : encodeRune r with
    | nil => rw [he] at hl; simp at hl
    | cons b rest =>
      rw [he] at hd
      rw [List.cons_append, ValidString_cons]
      rw [List.cons_append] at hd
      rw [hd]
      simp only
      have hbad : ¬ (r = RuneError ∧ (b :: rest).length = 1) := by
        rintro ⟨h1, h2⟩
        rw [← he, h1] at h2
        revert h2; decide
      rw [if_neg hbad, ← List.cons_append, List.drop_left]
      exact ih (fun x hx => h x (List.mem_cons_of_mem _ hx))

theorem runesToString_take_append_drop (rs : List Rune) (n : Nat) :
    runesToString (rs.take n) ++ runesToString (rs.drop n) = runesToString rs := by
  simp only [runesToString, ← List.flatMap_append, List.take_append_drop]

/-! ## Facts about the truncation step -/

theorem textToProcess_of_le (mcp : Int) (text : GoString)
    (h : ((stringToRunes text).length : Int) ≤ mcp) : textToProcess mcp text = some text := by
  simp only [textToProcess, gt_iff_lt]
  rw [if_neg (by omega)]

theorem textToProcess_of_gt (mcp : Int) (text : GoString) (h0 : 0 ≤ mcp)
    (h : mcp < ((stringToRunes text).length : Int)) :
    textToProcess mcp text = some (runesToString ((stringToRunes text).take mcp.toNat)) := by
  simp only [textToProcess, gt_iff_lt, sliceTo]
  rw [if_pos h, if_pos ⟨h0, by omega⟩]
  rfl

theorem textToProcess_of_neg (mcp : Int) (text : GoString) (h : mcp < 0) :
    textToProcess mcp text = none := by
  simp only [textToProcess, gt_iff_lt, sliceTo]
  rw [if_pos (by omega), if_neg (by omega)]
  rfl

/-! ## Facts about the handler -/

theorem detectHandler_of_parse_error {Body Lang : Type} (ext : Externals Body Lang)
    (det : LanguageDetector Lang) (mcp : Int) (body : Body) (h : ext.BodyParser body = none) :
    detectHandler ext det mcp body =
      ⟨[], .responded ⟨400, .errorMap "Invalid JSON format" "INVALID_JSON"⟩⟩ := by
  simp only [detectHandler, h]

theorem detectHandler_of_empty {Body Lang : Type} (ext : Externals Body Lang)
    (det : LanguageDetector Lang) (mcp : Int) (body : Body) (req : LanguageDetectionRequest)
    (h : ext.BodyParser body = some req) (he : req.Text = []) :
    detectHandler ext det mcp body =
      ⟨[], .responded ⟨400, .errorMap "Description cannot be empty" "EMPTY_TEXT"⟩⟩ := by
  simp only [detectHandler, h, he, List.length_nil, if_true]

theorem detectHandler_of_panic {Body Lang : Type} (ext : Externals Body Lang)
    (det : LanguageDetector Lang) (mcp : Int) (body : Body) (req : LanguageDetectionRequest)
    (h : ext.BodyParser body = some req) (hne : req.Text ≠ [])
    (ht : textToProcess mcp req.Text = none) :
    detectHandler ext det mcp body = ⟨[], .panicked⟩ := by
  have hl : ¬ req.Text.length = 0 := fun hz => hne (List.length_eq_zero.mp hz)
  simp only [detectHandler, h, hl, if_false, ht]

theorem detectHandler_of_found {Body Lang : Type} (ext : Externals Body Lang)
    (det : LanguageDetector Lang) (mcp : Int) (body : Body) (req : LanguageDetectionRequest)
    (t : GoString) (h : ext.BodyParser body = some req) (hne : req.Text ≠ [])
    (ht : textToProcess mcp req.Text = some t) (hf : (det.DetectLanguageOf t).2 = true)
    (hj : jsonEncodable (det.ComputeLanguageConfidence t (det.DetectLanguageOf t).1) = true) :
    detectHandler ext det mcp body =
      ⟨[.DetectLanguageOf t, .ComputeLanguageConfidence t (det.DetectLanguageOf t).1],
        .responded ⟨200, .detection
          { ISOCode := ToLower ext.caseTable (ext.IsoCode639_1_String (det.DetectLanguageOf t).1)
            Language := ToLower ext.caseTable (ext.String (det.DetectLanguageOf t).1)
            Confidence := det.ComputeLanguageConfidence t (det.DetectLanguageOf t).1 }⟩⟩ := by
  have hl : ¬ req.Text.length = 0 := fun hz => hne (List.length_eq_zero.mp hz)
  simp only [detectHandler, h, hl, if_false, ht, hf, hj, if_true]

theorem detectHandler_of_unencodable {Body Lang : Type} (ext : Externals Body Lang)
    (det : LanguageDetector Lang) (mcp : Int) (body : Body) (req : LanguageDetectionRequest)
    (t : GoString) (h : ext.BodyParser body = some req) (hne : req.Text ≠ [])
    (ht : textToProcess mcp req.Text = some t) (hf : (det.DetectLanguageOf t).2 = true)
    (hj : jsonEncodable (det.ComputeLanguageConfidence t (det.DetectLanguageOf t).1) = false) :
    detectHandler ext det mcp body =
      ⟨[.DetectLanguageOf t, .ComputeLanguageConfidence t (det.DetectLanguageOf t).1],
        .returnedError⟩ := by
  have hl : ¬ req.Text.length = 0 := fun hz => hne (List.length_eq_zero.mp hz)
  simp only [detectHandler, h, hl, if_false, ht, hf, hj, if_true, Bool.false_eq_true]

theorem detectHandler_of_not_found {Body Lang : Type} (ext : Externals Body Lang)
    (det : LanguageDetector Lang) (mcp : Int) (body : Body) (req : LanguageDetectionRequest)
    (t : GoString) (h : ext.BodyParser body = some req) (hne : req.Text ≠ [])
    (ht : textToProcess mcp req.Text = some t) (hf : (det.DetectLanguageOf t).2 = false) :
    detectHandler ext det mcp body =
      ⟨[.DetectLanguageOf t], .responded ⟨400, .errorMap
        "Could not detect language with sufficient confidence" "DETECTION_FAILED"⟩⟩ := by
  have hl : ¬ req.Text.length = 0 := fun hz => hne (List.length_eq_zero.mp hz)
  simp only [detectHandler, h, hl, if_false, ht, hf, Bool.false_eq_true]

/-! ## Facts about `strings.ToLower` and `strconv.Atoi` -/

/-- On a string of ASCII bytes `ToLower` gives ASCII bytes again, none of them
an upper-case letter. -/
theorem ToLower_ascii (caseTable : Nat → Nat) (s : GoString) (h : ∀ c ∈ s, c < 128) :
    ∀ c ∈ ToLower caseTable s, c < 128 ∧ isUpperASCII c = false := by
  have hall : s.all (fun c => decide (c < RuneSelf)) = true := by
    simp only [List.all_eq_true, decide_eq_true_eq, RuneSelf]
    exact h
  unfold ToLower
  rw [if_pos hall]
  split_ifs with hany
  · intro c hc
    obtain ⟨a, ha, rfl⟩ := List.mem_map.mp hc
    have h128 := h a ha
    by_cases hu : isUpperASCII a = true
    · rw [if_pos hu]
      simp only [isUpperASCII, decide_eq_true_eq, decide_eq_false_iff_not] at *
      omega
    · rw [if_neg hu]
      exact ⟨h128, by simpa using hu⟩
  · intro c hc
    refine ⟨h c hc, ?_⟩
    cases hu : isUpperASCII c with
    | false => rfl
    | true => exact absurd (List.any_eq_true.mpr ⟨c, hc, hu⟩) hany

/-- The value of a list of decimal digits, most significant first. -/
theorem parseDigits_digits (ds : List Nat) (h : ∀ d ∈ ds, d < 10) (acc : Nat) :
    parseDigits (ds.map (fun d => d + 48)) acc =
      some (ds.foldl (fun a d => a * 10 + d) acc) := by
  induction ds generalizing acc with
  | nil => rfl
  | cons d ds ih =>
    have hd := h d (List.mem_cons_self _ _)
    simp only [List.map_cons, parseDigits, List.foldl_cons]
    rw [if_pos (by omega), Nat.add_sub_cancel]
    exact ih (fun x hx => h x (List.mem_cons_of_mem _ hx)) _

/-- `Atoi` reads a non-empty run of decimal digits whose value fits `int` as
that value, and the same run after a minus sign as its negation. -/
theorem Atoi_digits (ds : List Nat) (hne : ds ≠ []) (h : ∀ d ∈ ds, d < 10)
    (hfit : ds.foldl (fun a d => a * 10 + d) 0 < 2 ^ 63) :
    Atoi (ds.map (fun d => d + 48)) = some ((ds.foldl (fun a d => a * 10 + d) 0 : Nat) : Int) ∧
    Atoi (45 :: ds.map (fun d => d + 48)) =
      some (-((ds.foldl (fun a d => a * 10 + d) 0 : Nat) : Int)) := by
  have hp := parseDigits_digits ds h 0
  constructor
  · cases ds with
    | nil => exact absurd rfl hne
    | cons d rest =>
      have hd := h d (List.mem_cons_self _ _)
      have h1 : ¬ (d + 48 = 43) := by omega
      have h2 : ¬ (d + 48 = 45) := by omega
      simp only [List.map_cons] at hp ⊢
      simp only [Atoi, h1, h2, or_self, if_false, List.isEmpty_cons, Bool.false_eq_true, hp]
      rw [if_pos]
      constructor <;> omega
  · have hnil : (ds.map (fun d => d + 48)).isEmpty = false := by
      cases ds with
      | nil => exact absurd rfl hne
      | cons d rest => rfl
    simp only [Atoi, true_or, if_true, hnil, Bool.false_eq_true, if_false, hp]
    rw [if_pos]
    constructor <;> omega

/-! ## Facts about the language tokens and about lower-casing them -/

theorem formatDigits_ascii (fuel : Nat) : ∀ (n : Nat) (acc : GoString),
    (∀ c ∈ acc, c < 128) → ∀ c ∈ formatDigits fuel n acc, c < 128 := by
  induction fuel with
  | zero => intro n acc h; exact h
  | succ fuel ih =>
    intro n acc h
    have hcons : ∀ c ∈ (48 + n % 10) :: acc, c < 128 := by
      intro c hc
      rcases List.mem_cons.mp hc with rfl | hc
      · omega
      · exact h c hc
    simp only [formatDigits]
    split_ifs
    · exact hcons
    · exact ih _ _ hcons

theorem FormatInt_ascii (i : Int) : ∀ c ∈ FormatInt i, c < 128 := by
  have hd := formatDigits_ascii (i.natAbs + 1) i.natAbs [] (by simp)
  unfold FormatInt
  split_ifs
  · intro c hc
    rcases List.mem_cons.mp hc with rfl | hc
    · decide
    · exact hd c hc
  · exact hd

theorem languageTable_ascii : ∀ entry ∈ languageTable,
    (∀ c ∈ goString entry.1, c < 128) ∧ (∀ c ∈ goString entry.2, c < 128) := by
  decide

theorem outOfRange_ascii (l : Int) :
    ∀ c ∈ goString "Language(" ++ FormatInt l ++ goString ")", c < 128 := by
  have hopen : ∀ c ∈ goString "Language(", c < 128 := by decide
  have hclose : ∀ c ∈ goString ")", c < 128 := by decide
  intro c hc
  rcases List.mem_append.mp hc with hc | hc
  · rcases List.mem_append.mp hc with hc | hc
    · exact hopen c hc
    · exact FormatInt_ascii l c hc
  · exact hclose c hc

/-- The name of every `lingua.Language`, also of an `int` that is none of the
constants, is a string of ASCII bytes. -/
theorem Language_String_ascii (l : Language) : ∀ c ∈ Language_String l, c < 128 := by
  unfold Language_String
  by_cases h1 : l < 0
  · rw [if_pos h1]
    exact outOfRange_ascii l
  · rw [if_neg h1]
    cases he : languageTable.get? l.toNat with
    | some entry => exact (languageTable_ascii entry (List.get?_mem he)).1
    | none =>
      by_cases h2 : l = Unknown
      · simp only [if_pos h2]
        decide
      · simp only [if_neg h2]
        exact outOfRange_ascii l

/-- The ISO 639-1 string of every `lingua.Language` is a string of ASCII
bytes. -/
theorem Language_IsoCode639_1_String_ascii (l : Language) :
    ∀ c ∈ Language_IsoCode639_1_String l, c < 128 := by
  unfold Language_IsoCode639_1_String
  by_cases h1 : l < 0
  · rw [if_pos h1]
    decide
  · rw [if_neg h1]
    cases he : languageTable.get? l.toNat with
    | some entry => exact (languageTable_ascii entry (List.get?_mem he)).2
    | none => decide

theorem Language_constants :
    Language_String English = goString "English" ∧
    Language_IsoCode639_1_String English = goString "EN" ∧
    Language_String Unknown = goString "Unknown" ∧
    Language_IsoCode639_1_String Unknown = goString "UnknownIsoCode639_1" ∧
    Language_String 76 = goString "Language(76)" ∧
    Language_String (-3) = goString "Language(-3)" ∧
    Language_IsoCode639_1_String 76 = goString "UnknownIsoCode639_1" := by
  decide

theorem stringToRunes_ascii (s : GoString) (h : ∀ c ∈ s, c < 128) : stringToRunes s = s := by
  induction s with
  | nil => rfl
  | cons b rest ih =>
    have hb : b < 128 := h b (List.mem_cons_self _ _)
    have hd : decodeRune (b :: rest) = (b, 1) := by
      simp only [decodeRune, hb, if_true]
    rw [stringToRunes_cons, hd]
    simp only [List.drop_succ_cons, List.drop_zero]
    rw [ih (fun c hc => h c (List.mem_cons_of_mem _ hc))]

/-- On a string of ASCII bytes `ToLower` maps byte by byte with the ASCII
rule. -/
theorem ToLower_ascii_eq_map (caseTable : Nat → Nat) (s : GoString) (h : ∀ c ∈ s, c < 128) :
    ToLower caseTable s = s.map (unicodeToLower caseTable) := by
  have hall : s.all (fun c => decide (c < RuneSelf)) = true := by
    simp only [List.all_eq_true, decide_eq_true_eq, RuneSelf]
    exact h
  have hpt : ∀ c ∈ s, (if isUpperASCII c = true then c + 32 else c) = unicodeToLower caseTable c := by
    intro c hc
    have h128 := h c hc
    have h7 : c ≤ 0x7F := by omega
    simp only [unicodeToLower]
    rw [if_pos h7]
  unfold ToLower
  rw [if_pos hall]
  split_ifs with hany
  · exact List.map_congr_left hpt
  · have hid : ∀ c ∈ s, unicodeToLower caseTable c = c := by
      intro c hc
      rw [← hpt c hc]
      cases hu : isUpperASCII c with
      | false => simp
      | true => exact absurd (List.any_eq_true.mpr ⟨c, hc, hu⟩) hany
    conv_lhs => rw [← List.map_id s]
    exact List.map_congr_left (fun c hc => (hid c hc).symm)

/-- On a string of ASCII bytes the code points of `ToLower s` are the images
under `unicode.ToLower` of the code points of `s`. -/
theorem ToLower_ascii_runes (caseTable : Nat → Nat) (s : GoString) (h : ∀ c ∈ s, c < 128) :
    stringToRunes (ToLower caseTable s) = (stringToRunes s).map (unicodeToLower caseTable) := by
  rw [stringToRunes_ascii _ (fun c hc => (ToLower_ascii caseTable s h c hc).1),
    stringToRunes_ascii s h, ToLower_ascii_eq_map caseTable s h]

/-- A string with a byte outside ASCII goes through `strings.Map`. -/
theorem ToLower_of_not_ascii (caseTable : Nat → Nat) (s : GoString)
    (h : ∃ c ∈ s, 128 ≤ c) :
    ToLower caseTable s = runesToString ((stringToRunes s).map (unicodeToLower caseTable)) := by
  have hall : ¬ s.all (fun c => decide (c < RuneSelf)) = true := by
    simp only [List.all_eq_true, decide_eq_true_eq, RuneSelf, not_forall]
    obtain ⟨c, hc, h128⟩ := h
    exact ⟨c, hc, by omega⟩
  unfold ToLower
  rw [if_neg hall]

theorem ToLower_samples :
    ToLower latin1CaseTable (goString "ÉCOLE Ünïted") = goString "école ünïted" ∧
    ToLower latin1CaseTable (goString "UnknownIsoCode639_1") = goString "unknowniso" ++
      goString "code639_1" ∧
    ToLower latin1CaseTable (goString "en") = goString "en" ∧
    unicodeToLower latin1CaseTable 0x41 = 0x61 ∧
    unicodeToLower latin1CaseTable 0x5B = 0x5B ∧
    unicodeToLower latin1CaseTable 0xC9 = 0xE9 ∧
    unicodeToLower latin1CaseTable 0x7F = 0x7F ∧
    unicodeToLower (fun _ => 0) 0x7F = 0x7F ∧
    unicodeToLower (fun _ => 0) 0x80 = 0 := by
  decide

theorem jsonEncodable_samples :
    jsonEncodable Float64.zero = true ∧ jsonEncodable ⟨0x3FF0000000000000⟩ = true ∧
    jsonEncodable Float64.NaN = false ∧ jsonEncodable Float64.Inf = false ∧
    jsonEncodable ⟨0xFFF0000000000000⟩ = false ∧ jsonEncodable ⟨0x7FEFFFFFFFFFFFFF⟩ = true ∧
    IsNaN Float64.NaN = true ∧ IsInf Float64.NaN = false ∧
    IsInf Float64.Inf = true ∧ IsNaN Float64.Inf = false := by
  decide

theorem head_text_of_found {Body Lang : Type} (ext : Externals Body Lang)
    (det : LanguageDetector Lang) (mcp : Int) (body : Body) (req : LanguageDetectionRequest)
    (t : GoString) (h : ext.BodyParser body = some req) (hne : req.Text ≠ [])
    (ht : textToProcess mcp req.Text = some t) :
    (detectHandler ext det mcp body).calls.head? = some (Call.DetectLanguageOf t) ∧
      ∀ c ∈ (detectHandler ext det mcp body).calls, c.text = t := by
  cases hf : (det.DetectLanguageOf t).2 with
  | true =>
    cases hj : jsonEncodable (det.ComputeLanguageConfidence t (det.DetectLanguageOf t).1) with
    | true =>
      rw [detectHandler_of_found ext det mcp body req t h hne ht hf hj]
      refine ⟨rfl, ?_⟩
      intro c hc
      simp only [List.mem_cons, List.mem_singleton, List.not_mem_nil, or_false] at hc
      rcases hc with rfl | rfl <;> rfl
    | false =>
      rw [detectHandler_of_unencodable ext det mcp body req t h hne ht hf hj]
      refine ⟨rfl, ?_⟩
      intro c hc
      simp only [List.mem_cons, List.mem_singleton, List.not_mem_nil, or_false] at hc
      rcases hc with rfl | rfl <;> rfl
  | false =>
    rw [detectHandler_of_not_found ext det mcp body req t h hne ht hf]
    refine ⟨rfl, ?_⟩
    intro c hc
    simp only [List.mem_singleton] at hc
    subst hc; rfl

/-! ## The claims -/

/-- C1: when the limit is positive and the request text has more code points
than the limit, the detector receives the string made of the first
`maxCharProcess` code points of the text: it decodes to exactly those code
points, so it has `maxCharProcess` of them, it is valid UTF-8 of its own, and
for a valid UTF-8 text it is the byte prefix of the text that ends where the
remaining code points begin, never inside a multi-byte character. -/
theorem C1_truncation_keeps_whole_code_points {Body Lang : Type} (ext : Externals Body Lang)
    (det : LanguageDetector Lang) (maxCharProcess : Int) (body : Body)
    (req : LanguageDetectionRequest) (hparse : ext.BodyParser body = some req)
    (hpos : 0 < maxCharProcess)
    (hlong : maxCharProcess < ((stringToRunes req.Text).length : Int)) :
    ∃ t : GoString,
      (detectHandler ext det maxCharProcess body).calls.head? = some (Call.DetectLanguageOf t) ∧
      (∀ c ∈ (detectHandler ext det maxCharProcess body).calls, c.text = t) ∧
      t = runesToString ((stringToRunes req.Text).take maxCharProcess.toNat) ∧
      stringToRunes t = (stringToRunes req.Text).take maxCharProcess.toNat ∧
      ((stringToRunes t).length : Int) = maxCharProcess ∧
      ValidString t = true ∧
      (ValidString req.Text = true →
        t ++ runesToString ((stringToRunes req.Text).drop maxCharProcess.toNat) = req.Text) := by
  have hne : req.Text ≠ [] := by
    intro he
    rw [he, stringToRunes_nil] at hlong
    simp only [List.length_nil, Nat.cast_zero] at hlong
    omega
  have ht := textToProcess_of_gt maxCharProcess req.Text (Int.le_of_lt hpos) hlong
  obtain ⟨h1, h2⟩ := head_text_of_found ext det maxCharProcess body req _ hparse hne ht
  refine ⟨_, h1, h2, rfl, stringToRunes_truncated _ _, ?_, ?_, ?_⟩
  · rw [stringToRunes_truncated, List.length_take]
    omega
  · exact ValidString_runesToString _ (validRune_of_mem_take _ _)
  · intro hv
    rw [runesToString_take_append_drop, runesToString_stringToRunes _ hv]

/-- C1, at the text "héllo wörld" with limit 2: the detector receives "hé"
(three bytes), not the two-byte prefix that would cut "é" in half. -/
theorem C1_truncation_keeps_whole_code_points_witness :
    (0 : Int) < 2 ∧
    (2 : Int) < ((stringToRunes (goString "héllo wörld")).length : Int) ∧
    ∃ t : GoString,
      (detectHandler sampleExternals asciiDetector 2
        (some ⟨goString "héllo wörld"⟩)).calls.head? = some (Call.DetectLanguageOf t) ∧
      (∀ c ∈ (detectHandler sampleExternals asciiDetector 2
        (some ⟨goString "héllo wörld"⟩)).calls, c.text = t) ∧
      t = runesToString ((stringToRunes (goString "héllo wörld")).take (2 : Int).toNat) ∧
      stringToRunes t = (stringToRunes (goString "héllo wörld")).take (2 : Int).toNat ∧
      ((stringToRunes t).length : Int) = 2 ∧
      ValidString t = true ∧
      (ValidString (goString "héllo wörld") = true →
        t ++ runesToString ((stringToRunes (goString "héllo wörld")).drop (2 : Int).toNat) =
          goString "héllo wörld") :=
  ⟨by decide, by decide,
    C1_truncation_keeps_whole_code_points sampleExternals asciiDetector 2
      (some ⟨goString "héllo wörld"⟩) ⟨goString "héllo wörld"⟩ rfl (by decide) (by decide)⟩

/-- C2: a non-empty request text with fewer code points than the limit is
passed to the detector as it is, byte for byte. -/
theorem C2_short_text_is_not_truncated {Body Lang : Type} (ext : Externals Body Lang)
    (det : LanguageDetector Lang) (maxCharProcess : Int) (body : Body)
    (req : LanguageDetectionRequest) (hparse : ext.BodyParser body = some req)
    (hne : req.Text ≠ [])
    (hshort : ((stringToRunes req.Text).length : Int) < maxCharProcess) :
    textToProcess maxCharProcess req.Text = some req.Text ∧
    (detectHandler ext det maxCharProcess body).calls.head? =
      some (Call.DetectLanguageOf req.Text) ∧
    ∀ c ∈ (detectHandler ext det maxCharProcess body).calls, c.text = req.Text := by
  have ht := textToProcess_of_le maxCharProcess req.Text (Int.le_of_lt hshort)
  exact ⟨ht, head_text_of_found ext det maxCharProcess body req _ hparse hne ht⟩

/-- C2, at the text "Hola, ¿qué tal?" with limit 100. -/
theorem C2_short_text_is_not_truncated_witness :
    goString "Hola, ¿qué tal?" ≠ [] ∧
    ((stringToRunes (goString "Hola, ¿qué tal?")).length : Int) < 100 ∧
    textToProcess 100 (goString "Hola, ¿qué tal?") = some (goString "Hola, ¿qué tal?") ∧
    (detectHandler sampleExternals asciiDetector 100
      (some ⟨goString "Hola, ¿qué tal?"⟩)).calls.head? =
        some (Call.DetectLanguageOf (goString "Hola, ¿qué tal?")) ∧
    ∀ c ∈ (detectHandler sampleExternals asciiDetector 100
      (some ⟨goString "Hola, ¿qué tal?"⟩)).calls, c.text = goString "Hola, ¿qué tal?" :=
  ⟨by decide, by decide,
    C2_short_text_is_not_truncated sampleExternals asciiDetector 100
      (some ⟨goString "Hola, ¿qué tal?"⟩) ⟨goString "Hola, ¿qué tal?"⟩ rfl (by decide)
      (by decide)⟩

/-- C3, as stated, fails: with the limit 100, a body that parses, a
non-empty text and a detector that finds English but computes a confidence
that is not a number, `c.JSON` returns an error and the response is the 500
of the error handler, neither the HTTP 200 detection body nor an HTTP 400. -/
theorem C3_match_with_NaN_confidence_gets_500 :
    sampleExternals.BodyParser (some ⟨goString "Hello, world"⟩) =
      some ⟨goString "Hello, world"⟩ ∧
    goString "Hello, world" ≠ [] ∧
    textToProcess 100 (goString "Hello, world") = some (goString "Hello, world") ∧
    ((constDetector SampleLanguage.English true Float64.NaN).DetectLanguageOf
      (goString "Hello, world")).2 = true ∧
    serveDetect sampleExternals (constDetector SampleLanguage.English true Float64.NaN) 100
      (some ⟨goString "Hello, world"⟩) = ⟨500, ResponseBody.errorText⟩ ∧
    (serveDetect sampleExternals (constDetector SampleLanguage.English true Float64.NaN) 100
      (some ⟨goString "Hello, world"⟩)).status ≠ 200 ∧
    (serveDetect sampleExternals (constDetector SampleLanguage.English true Float64.NaN) 100
      (some ⟨goString "Hello, world"⟩)).status ≠ 400 := by
  decide

/-- C3, amended: with a positive limit the handler does not panic and every
request gets exactly one response. The response is the HTTP 200 detection
body exactly when the body parsed, the text is non-empty, the detector found
a language for the truncated text and the confidence computed for it can be
JSON-encoded (it is neither infinite nor not a number). When the body does not
parse, the text is empty or the detector finds nothing, the response is HTTP
400 with an error body whose code is INVALID_JSON, EMPTY_TEXT or
DETECTION_FAILED. When the detector finds a language and the confidence
cannot be encoded, the handler returns the encoder's error and the response
is the error handler's HTTP 500, which is not a detection body. -/
theorem C3_detection_response_iff_encodable_success {Body Lang : Type}
    (ext : Externals Body Lang) (det : LanguageDetector Lang) (maxCharProcess : Int)
    (body : Body) (hpos : 0 < maxCharProcess) :
    (detectHandler ext det maxCharProcess body).outcome ≠ Outcome.panicked ∧
    ((detectHandler ext det maxCharProcess body).outcome =
        Outcome.responded (serveDetect ext det maxCharProcess body) ∨
      ((detectHandler ext det maxCharProcess body).outcome = Outcome.returnedError ∧
        serveDetect ext det maxCharProcess body = ⟨500, ResponseBody.errorText⟩)) ∧
    ((serveDetect ext det maxCharProcess body).status = 200 ↔
      ∃ req t, ext.BodyParser body = some req ∧ req.Text ≠ [] ∧
        textToProcess maxCharProcess req.Text = some t ∧ (det.DetectLanguageOf t).2 = true ∧
        jsonEncodable (det.ComputeLanguageConfidence t (det.DetectLanguageOf t).1) = true) ∧
    ((∃ r, (serveDetect ext det maxCharProcess body).body = ResponseBody.detection r) ↔
      ∃ req t, ext.BodyParser body = some req ∧ req.Text ≠ [] ∧
        textToProcess maxCharProcess req.Text = some t ∧ (det.DetectLanguageOf t).2 = true ∧
        jsonEncodable (det.ComputeLanguageConfidence t (det.DetectLanguageOf t).1) = true) ∧
    ((¬ ∃ req t, ext.BodyParser body = some req ∧ req.Text ≠ [] ∧
        textToProcess maxCharProcess req.Text = some t ∧ (det.DetectLanguageOf t).2 = true) →
      (serveDetect ext det maxCharProcess body).status = 400 ∧
      ∃ msg code, (serveDetect ext det maxCharProcess body).body = ResponseBody.errorMap msg code ∧
        (code = "INVALID_JSON" ∨ code = "EMPTY_TEXT" ∨ code = "DETECTION_FAILED")) ∧
    ((∃ req t, ext.BodyParser body = some req ∧ req.Text ≠ [] ∧
        textToProcess maxCharProcess req.Text = some t ∧ (det.DetectLanguageOf t).2 = true ∧
        jsonEncodable (det.ComputeLanguageConfidence t (det.DetectLanguageOf t).1) = false) →
      serveDetect ext det maxCharProcess body = ⟨500, ResponseBody.errorText⟩) := by
  cases hp : ext.BodyParser body with
  | none =>
    have hrun := detectHandler_of_parse_error ext det maxCharProcess body hp
    have hs : serveDetect ext det maxCharProcess body =
        ⟨400, .errorMap "Invalid JSON format" "INVALID_JSON"⟩ := by
      simp only [serveDetect, hrun]
    rw [hrun, hs]
    refine ⟨(by intro h; cases h), Or.inl rfl, ?_, ?_, ?_, ?_⟩
    · simp
    · simp
    · intro _; exact ⟨rfl, _, _, rfl, Or.inl rfl⟩
    · rintro ⟨req, t, h, _⟩; cases h
  | some req =>
    by_cases he : req.Text = []
    · have hrun := detectHandler_of_empty ext det maxCharProcess body req hp he
      have hs : serveDetect ext det maxCharProcess body =
          ⟨400, .errorMap "Description cannot be empty" "EMPTY_TEXT"⟩ := by
        simp only [serveDetect, hrun]
      rw [hrun, hs]
      refine ⟨(by intro h; cases h), Or.inl rfl, ?_, ?_, ?_, ?_⟩
      · simp [he]
      · simp [he]
      · intro _; exact ⟨rfl, _, _, rfl, Or.inr (Or.inl rfl)⟩
      · rintro ⟨req2, t, h, hne2, _⟩
        cases h
        exact absurd he hne2
    · obtain ⟨t, ht⟩ : ∃ t, textToProcess maxCharProcess req.Text = some t := by
        by_cases hg : maxCharProcess < ((stringToRunes req.Text).length : Int)
        · exact ⟨_, textToProcess_of_gt _ _ (Int.le_of_lt hpos) hg⟩
        · exact ⟨_, textToProcess_of_le _ _ (by omega)⟩
      have huniq : ∀ (req2 : LanguageDetectionRequest) (t2 : GoString), some req = some req2 →
          textToProcess maxCharProcess req2.Text = some t2 → t2 = t := by
        intro req2 t2 hr ht2
        cases hr
        rw [ht] at ht2
        cases ht2
        rfl
      cases hf : (det.DetectLanguageOf t).2 with
      | true =>
        have hfound : ∃ req2 t2, some req = some req2 ∧ req2.Text ≠ [] ∧
            textToProcess maxCharProcess req2.Text = some t2 ∧
            (det.DetectLanguageOf t2).2 = true := ⟨req, t, rfl, he, ht, hf⟩
        cases hj : jsonEncodable (det.ComputeLanguageConfidence t (det.DetectLanguageOf t).1) with
        | true =>
          have hrun := detectHandler_of_found ext det maxCharProcess body req t hp he ht hf hj
          have hs : serveDetect ext det maxCharProcess body = ⟨200, .detection
              { ISOCode :=
                  ToLower ext.caseTable (ext.IsoCode639_1_String (det.DetectLanguageOf t).1)
                Language := ToLower ext.caseTable (ext.String (det.DetectLanguageOf t).1)
                Confidence := det.ComputeLanguageConfidence t (det.DetectLanguageOf t).1 }⟩ := by
            simp only [serveDetect, hrun]
          have hyes : ∃ req2 t2, some req = some req2 ∧ req2.Text ≠ [] ∧
              textToProcess maxCharProcess req2.Text = some t2 ∧
              (det.DetectLanguageOf t2).2 = true ∧
              jsonEncodable (det.ComputeLanguageConfidence t2 (det.DetectLanguageOf t2).1) =
                true := ⟨req, t, rfl, he, ht, hf, hj⟩
          rw [hrun, hs]
          refine ⟨(by intro h; cases h), Or.inl rfl, ?_, ?_, ?_, ?_⟩
          · exact ⟨fun _ => hyes, fun _ => rfl⟩
          · exact ⟨fun _ => hyes, fun _ => ⟨_, rfl⟩⟩
          · intro hno; exact absurd hfound hno
          · rintro ⟨req2, t2, hr, _, ht2, _, hj2⟩
            have := huniq req2 t2 hr ht2
            subst this
            rw [hj] at hj2
            cases hj2
        | false =>
          have hrun :=
            detectHandler_of_unencodable ext det maxCharProcess body req t hp he ht hf hj
          have hs : serveDetect ext det maxCharProcess body = ⟨500, .errorText⟩ := by
            simp only [serveDetect, hrun]
          have hno : ¬ ∃ req2 t2, some req = some req2 ∧ req2.Text ≠ [] ∧
              textToProcess maxCharProcess req2.Text = some t2 ∧
              (det.DetectLanguageOf t2).2 = true ∧
              jsonEncodable (det.ComputeLanguageConfidence t2 (det.DetectLanguageOf t2).1) =
                true := by
            rintro ⟨req2, t2, hr, _, ht2, _, hj2⟩
            have := huniq req2 t2 hr ht2
            subst this
            rw [hj] at hj2
            cases hj2
          rw [hrun, hs]
          refine ⟨(by intro h; cases h), Or.inr ⟨rfl, rfl⟩, ?_, ?_, ?_, ?_⟩
          · constructor
            · intro h; simp at h
            · intro h; exact absurd h hno
          · constructor
            · rintro ⟨r, h⟩; simp at h
            · intro h; exact absurd h hno
          · intro hn; exact absurd hfound hn
          · intro _; rfl
      | false =>
        have hrun := detectHandler_of_not_found ext det maxCharProcess body req t hp he ht hf
        have hs : serveDetect ext det maxCharProcess body = ⟨400, .errorMap
            "Could not detect language with sufficient confidence" "DETECTION_FAILED"⟩ := by
          simp only [serveDetect, hrun]
        have hnf : ∀ (req2 : LanguageDetectionRequest) (t2 : GoString), some req = some req2 →
            textToProcess maxCharProcess req2.Text = some t2 →
            (det.DetectLanguageOf t2).2 = true → False := by
          intro req2 t2 hr ht2 hf2
          have := huniq req2 t2 hr ht2
          subst this
          rw [hf] at hf2
          cases hf2
        rw [hrun, hs]
        refine ⟨(by intro h; cases h), Or.inl rfl, ?_, ?_, ?_, ?_⟩
        · constructor
          · intro h; simp at h
          · rintro ⟨req2, t2, hr, _, ht2, hf2, _⟩; exact (hnf req2 t2 hr ht2 hf2).elim
        · constructor
          · rintro ⟨r, h⟩; simp at h
          · rintro ⟨req2, t2, hr, _, ht2, hf2, _⟩; exact (hnf req2 t2 hr ht2 hf2).elim
        · intro _; exact ⟨rfl, _, _, rfl, Or.inr (Or.inr rfl)⟩
        · rintro ⟨req2, t2, hr, _, ht2, hf2, _⟩; exact (hnf req2 t2 hr ht2 hf2).elim

/-- C3, amended, at the limit 5 and the text "Hello, world", for which the
sample detector finds English with a finite confidence: the response is the
HTTP 200 detection body, and both sides of each equivalence hold. -/
theorem C3_detection_response_iff_encodable_success_witness :
    (0 : Int) < 5 ∧
    serveDetect sampleExternals asciiDetector 5 (some ⟨goString "Hello, world"⟩) =
      ⟨200, ResponseBody.detection ⟨goString "en", goString "english", ⟨5⟩⟩⟩ ∧
    (detectHandler sampleExternals asciiDetector 5
        (some ⟨goString "Hello, world"⟩)).outcome ≠ Outcome.panicked ∧
    ((detectHandler sampleExternals asciiDetector 5 (some ⟨goString "Hello, world"⟩)).outcome =
        Outcome.responded
          (serveDetect sampleExternals asciiDetector 5 (some ⟨goString "Hello, world"⟩)) ∨
      ((detectHandler sampleExternals asciiDetector 5
          (some ⟨goString "Hello, world"⟩)).outcome = Outcome.returnedError ∧
        serveDetect sampleExternals asciiDetector 5 (some ⟨goString "Hello, world"⟩) =
          ⟨500, ResponseBody.errorText⟩)) ∧
    ((serveDetect sampleExternals asciiDetector 5
        (some ⟨goString "Hello, world"⟩)).status = 200 ↔
      ∃ req t, sampleExternals.BodyParser (some ⟨goString "Hello, world"⟩) = some req ∧
        req.Text ≠ [] ∧ textToProcess 5 req.Text = some t ∧
        (asciiDetector.DetectLanguageOf t).2 = true ∧
        jsonEncodable
          (asciiDetector.ComputeLanguageConfidence t (asciiDetector.DetectLanguageOf t).1) =
            true) ∧
    ((∃ r, (serveDetect sampleExternals asciiDetector 5
        (some ⟨goString "Hello, world"⟩)).body = ResponseBody.detection r) ↔
      ∃ req t, sampleExternals.BodyParser (some ⟨goString "Hello, world"⟩) = some req ∧
        req.Text ≠ [] ∧ textToProcess 5 req.Text = some t ∧
        (asciiDetector.DetectLanguageOf t).2 = true ∧
        jsonEncodable
          (asciiDetector.ComputeLanguageConfidence t (asciiDetector.DetectLanguageOf t).1) =
            true) ∧
    ((¬ ∃ req t, sampleExternals.BodyParser (some ⟨goString "Hello, world"⟩) = some req ∧
        req.Text ≠ [] ∧ textToProcess 5 req.Text = some t ∧
        (asciiDetector.DetectLanguageOf t).2 = true) →
      (serveDetect sampleExternals asciiDetector 5
        (some ⟨goString "Hello, world"⟩)).status = 400 ∧
      ∃ msg code, (serveDetect sampleExternals asciiDetector 5
          (some ⟨goString "Hello, world"⟩)).body = ResponseBody.errorMap msg code ∧
        (code = "INVALID_JSON" ∨ code = "EMPTY_TEXT" ∨ code = "DETECTION_FAILED")) ∧
    ((∃ req t, sampleExternals.BodyParser (some ⟨goString "Hello, world"⟩) = some req ∧
        req.Text ≠ [] ∧ textToProcess 5 req.Text = some t ∧
        (asciiDetector.DetectLanguageOf t).2 = true ∧
        jsonEncodable
          (asciiDetector.ComputeLanguageConfidence t (asciiDetector.DetectLanguageOf t).1) =
            false) →
      serveDetect sampleExternals asciiDetector 5 (some ⟨goString "Hello, world"⟩) =
        ⟨500, ResponseBody.errorText⟩) :=
  ⟨by decide, by decide,
    C3_detection_response_iff_encodable_success sampleExternals asciiDetector 5
      (some ⟨goString "Hello, world"⟩) (by decide)⟩

/-- C4: when the body parses, the text is non-empty and the detector reports
no match for the truncated text, the response is HTTP 400 with code
DETECTION_FAILED; the confidence is not computed and no 200 response (in
particular none with language "unknown") is produced. -/
theorem C4_not_found_is_detection_failed {Body Lang : Type} (ext : Externals Body Lang)
    (det : LanguageDetector Lang) (maxCharProcess : Int) (body : Body)
    (req : LanguageDetectionRequest) (t : GoString)
    (hparse : ext.BodyParser body = some req) (hne : req.Text ≠ [])
    (ht : textToProcess maxCharProcess req.Text = some t)
    (hfound : (det.DetectLanguageOf t).2 = false) :
    serveDetect ext det maxCharProcess body =
      ⟨400, ResponseBody.errorMap "Could not detect language with sufficient confidence"
        "DETECTION_FAILED"⟩ ∧
    (detectHandler ext det maxCharProcess body).calls = [Call.DetectLanguageOf t] ∧
    (serveDetect ext det maxCharProcess body).status ≠ 200 ∧
    ∀ r, (serveDetect ext det maxCharProcess body).body ≠ ResponseBody.detection r := by
  have hrun := detectHandler_of_not_found ext det maxCharProcess body req t hparse hne ht hfound
  have hs : serveDetect ext det maxCharProcess body = ⟨400, .errorMap
      "Could not detect language with sufficient confidence" "DETECTION_FAILED"⟩ := by
    simp only [serveDetect, hrun]
  rw [hrun, hs]
  refine ⟨rfl, rfl, by decide, ?_⟩
  intro r h
  cases h

/-- C4, at Japanese text and a detector that finds nothing. -/
theorem C4_not_found_is_detection_failed_witness :
    goString "これはテストです。" ≠ [] ∧
    serveDetect sampleExternals (constDetector .Unknown false ⟨0⟩) 100
        (some ⟨goString "これはテストです。"⟩) =
      ⟨400, ResponseBody.errorMap "Could not detect language with sufficient confidence"
        "DETECTION_FAILED"⟩ ∧
    (detectHandler sampleExternals (constDetector .Unknown false ⟨0⟩) 100
        (some ⟨goString "これはテストです。"⟩)).calls =
      [Call.DetectLanguageOf (goString "これはテストです。")] ∧
    (serveDetect sampleExternals (constDetector .Unknown false ⟨0⟩) 100
        (some ⟨goString "これはテストです。"⟩)).status ≠ 200 ∧
    ∀ r, (serveDetect sampleExternals (constDetector .Unknown false ⟨0⟩) 100
        (some ⟨goString "これはテストです。"⟩)).body ≠ ResponseBody.detection r :=
  ⟨by decide,
    C4_not_found_is_detection_failed sampleExternals (constDetector .Unknown false ⟨0⟩) 100
      (some ⟨goString "これはテストです。"⟩) ⟨goString "これはテストです。"⟩
      (goString "これはテストです。") rfl (by decide) (by decide) rfl⟩

/-- C5, as stated, fails: with a non-empty text and a detector that returns
English with a match but computes an infinite confidence, `c.JSON` returns an
error and the response is the 500 of the error handler, not HTTP 200 with the
fields of the language. -/
theorem C5_match_with_infinite_confidence_gets_500 :
    goString "Hello, world" ≠ [] ∧
    textToProcess 5 (goString "Hello, world") = some (goString "Hello") ∧
    (fixedDetector English true Float64.Inf).DetectLanguageOf (goString "Hello") =
      (English, true) ∧
    serveDetect (linguaExternals (fun body => body) latin1CaseTable)
        (fixedDetector English true Float64.Inf) 5 (some ⟨goString "Hello, world"⟩) =
      ⟨500, ResponseBody.errorText⟩ ∧
    (serveDetect (linguaExternals (fun body => body) latin1CaseTable)
        (fixedDetector English true Float64.Inf) 5
        (some ⟨goString "Hello, world"⟩)).status ≠ 200 := by
  decide

/-- C5, amended: when the text is non-empty, the detector returns language
`L` with a match for the truncated text `t` and the confidence it computes
for `t` and `L` can be JSON-encoded (it is neither infinite nor not a number),
the response is HTTP 200 with `iso_code` the lower-cased ISO 639-1 string of
`L`, `language` the lower-cased name of `L`, and `confidence` the value of
`ComputeLanguageConfidence(t, L)`, computed on the very text `t` that
`DetectLanguageOf` received. For every `lingua.Language` the two fields are
ASCII strings without an upper-case letter, and their code points are the
images under `unicode.ToLower` of the code points of the ISO string and of
the name. -/
theorem C5_success_response_fields {Body : Type}
    (BodyParser : Body → Option LanguageDetectionRequest) (caseTable : Nat → Nat)
    (det : LanguageDetector Language) (maxCharProcess : Int) (body : Body)
    (req : LanguageDetectionRequest) (t : GoString) (L : Language)
    (hparse : BodyParser body = some req) (hne : req.Text ≠ [])
    (ht : textToProcess maxCharProcess req.Text = some t)
    (hdet : det.DetectLanguageOf t = (L, true))
    (hconf : jsonEncodable (det.ComputeLanguageConfidence t L) = true) :
    (detectHandler (linguaExternals BodyParser caseTable) det maxCharProcess body).calls =
      [Call.DetectLanguageOf t, Call.ComputeLanguageConfidence t L] ∧
    ∃ r : LanguageDetectionResponse,
      serveDetect (linguaExternals BodyParser caseTable) det maxCharProcess body =
        ⟨200, ResponseBody.detection r⟩ ∧
      r.ISOCode = ToLower caseTable (Language_IsoCode639_1_String L) ∧
      r.Language = ToLower caseTable (Language_String L) ∧
      r.Confidence = det.ComputeLanguageConfidence t L ∧
      (∀ c ∈ r.ISOCode, c < 128 ∧ isUpperASCII c = false) ∧
      (∀ c ∈ r.Language, c < 128 ∧ isUpperASCII c = false) ∧
      stringToRunes r.ISOCode =
        (stringToRunes (Language_IsoCode639_1_String L)).map (unicodeToLower caseTable) ∧
      stringToRunes r.Language =
        (stringToRunes (Language_String L)).map (unicodeToLower caseTable) := by
  have hf : (det.DetectLanguageOf t).2 = true := by rw [hdet]
  have hL : (det.DetectLanguageOf t).1 = L := by rw [hdet]
  have hj : jsonEncodable (det.ComputeLanguageConfidence t (det.DetectLanguageOf t).1) = true := by
    rw [hL]; exact hconf
  have hrun := detectHandler_of_found (linguaExternals BodyParser caseTable) det maxCharProcess
    body req t hparse hne ht hf hj
  rw [hL] at hrun
  have hs : serveDetect (linguaExternals BodyParser caseTable) det maxCharProcess body =
      ⟨200, .detection
        { ISOCode := ToLower caseTable (Language_IsoCode639_1_String L)
          Language := ToLower caseTable (Language_String L)
          Confidence := det.ComputeLanguageConfidence t L }⟩ := by
    simp only [serveDetect, hrun]
    rfl
  rw [hrun, hs]
  exact ⟨rfl, _, rfl, rfl, rfl, rfl,
    ToLower_ascii _ _ (Language_IsoCode639_1_String_ascii L),
    ToLower_ascii _ _ (Language_String_ascii L),
    ToLower_ascii_runes _ _ (Language_IsoCode639_1_String_ascii L),
    ToLower_ascii_runes _ _ (Language_String_ascii L)⟩

/-- C5, amended, at the text "Hello, world" with limit 5 and a detector that
finds English with confidence 1.0: the detector and the confidence
computation both see "Hello", and the response carries "en", "english" and
1.0. -/
theorem C5_success_response_fields_witness :
    goString "Hello, world" ≠ [] ∧
    textToProcess 5 (goString "Hello, world") = some (goString "Hello") ∧
    jsonEncodable ((fixedDetector English true ⟨0x3FF0000000000000⟩).ComputeLanguageConfidence
      (goString "Hello") English) = true ∧
    serveDetect (linguaExternals (fun body => body) latin1CaseTable)
        (fixedDetector English true ⟨0x3FF0000000000000⟩) 5
        (some ⟨goString "Hello, world"⟩) =
      ⟨200, ResponseBody.detection
        ⟨goString "en", goString "english", ⟨0x3FF0000000000000⟩⟩⟩ ∧
    (detectHandler (linguaExternals (fun body => body) latin1CaseTable)
        (fixedDetector English true ⟨0x3FF0000000000000⟩) 5
        (some ⟨goString "Hello, world"⟩)).calls =
      [Call.DetectLanguageOf (goString "Hello"),
        Call.ComputeLanguageConfidence (goString "Hello") English] ∧
    ∃ r : LanguageDetectionResponse,
      serveDetect (linguaExternals (fun body => body) latin1CaseTable)
          (fixedDetector English true ⟨0x3FF0000000000000⟩) 5
          (some ⟨goString "Hello, world"⟩) = ⟨200, ResponseBody.detection r⟩ ∧
      r.ISOCode = ToLower latin1CaseTable (Language_IsoCode639_1_String English) ∧
      r.Language = ToLower latin1CaseTable (Language_String English) ∧
      r.Confidence = (fixedDetector English true ⟨0x3FF0000000000000⟩).ComputeLanguageConfidence
        (goString "Hello") English ∧
      (∀ c ∈ r.ISOCode, c < 128 ∧ isUpperASCII c = false) ∧
      (∀ c ∈ r.Language, c < 128 ∧ isUpperASCII c = false) ∧
      stringToRunes r.ISOCode =
        (stringToRunes (Language_IsoCode639_1_String English)).map
          (unicodeToLower latin1CaseTable) ∧
      stringToRunes r.Language =
        (stringToRunes (Language_String English)).map (unicodeToLower latin1CaseTable) :=
  ⟨by decide, by decide, by decide, by decide,
    C5_success_response_fields (fun body => body) latin1CaseTable
      (fixedDetector English true ⟨0x3FF0000000000000⟩) 5
      (some ⟨goString "Hello, world"⟩) ⟨goString "Hello, world"⟩ (goString "Hello")
      English rfl (by decide) (by decide) rfl (by decide)⟩

/-- C6: a body that parses to a zero-length text is answered with HTTP 400 and
code EMPTY_TEXT whatever the limit is, and the detector is not called. The
test is on the raw text: with the limit 0 a non-empty text is cut down to the
empty string and is still passed to the detector, not rejected as empty. -/
theorem C6_empty_text_rejected_before_truncation {Body Lang : Type}
    (ext : Externals Body Lang) (det : LanguageDetector Lang) (maxCharProcess : Int)
    (body : Body) (req : LanguageDetectionRequest)
    (hparse : ext.BodyParser body = some req) (hempty : req.Text.length = 0) :
    (detectHandler ext det maxCharProcess body).calls = [] ∧
    serveDetect ext det maxCharProcess body =
      ⟨400, ResponseBody.errorMap "Description cannot be empty" "EMPTY_TEXT"⟩ ∧
    ∀ (body2 : Body) (req2 : LanguageDetectionRequest),
      ext.BodyParser body2 = some req2 → req2.Text ≠ [] →
        (detectHandler ext det 0 body2).calls.head? = some (Call.DetectLanguageOf []) ∧
        ∀ msg, serveDetect ext det 0 body2 ≠ ⟨400, ResponseBody.errorMap msg "EMPTY_TEXT"⟩ := by
  have he : req.Text = [] := List.length_eq_zero.mp hempty
  have hrun := detectHandler_of_empty ext det maxCharProcess body req hparse he
  have hs : serveDetect ext det maxCharProcess body =
      ⟨400, .errorMap "Description cannot be empty" "EMPTY_TEXT"⟩ := by
    simp only [serveDetect, hrun]
  rw [hrun, hs]
  refine ⟨rfl, rfl, ?_⟩
  intro body2 req2 hp2 hne2
  have hlen : (0 : Int) < ((stringToRunes req2.Text).length : Int) := by
    have : stringToRunes req2.Text ≠ [] := fun h => hne2 ((stringToRunes_eq_nil _).mp h)
    have := List.length_pos.mpr this
    omega
  have ht : textToProcess 0 req2.Text = some [] := by
    rw [textToProcess_of_gt 0 req2.Text (Int.le_refl 0) hlen]
    rfl
  refine ⟨(head_text_of_found ext det 0 body2 req2 [] hp2 hne2 ht).1, ?_⟩
  intro msg
  cases hf : (det.DetectLanguageOf []).2 with
  | true =>
    cases hj : jsonEncodable (det.ComputeLanguageConfidence [] (det.DetectLanguageOf []).1) with
    | true =>
      have hrun2 := detectHandler_of_found ext det 0 body2 req2 [] hp2 hne2 ht hf hj
      simp only [serveDetect, hrun2]
      intro h
      cases h
    | false =>
      have hrun2 := detectHandler_of_unencodable ext det 0 body2 req2 [] hp2 hne2 ht hf hj
      simp only [serveDetect, hrun2]
      intro h
      cases h
  | false =>
    have hrun2 := detectHandler_of_not_found ext det 0 body2 req2 [] hp2 hne2 ht hf
    simp only [serveDetect, hrun2]
    intro h
    injection h with _ hb
    injection hb with _ hc
    revert hc
    decide

/-- C6, at an empty text and the limit -5. -/
theorem C6_empty_text_rejected_before_truncation_witness :
    (goString "").length = 0 ∧
    (detectHandler sampleExternals asciiDetector (-5) (some ⟨goString ""⟩)).calls = [] ∧
    serveDetect sampleExternals asciiDetector (-5) (some ⟨goString ""⟩) =
      ⟨400, ResponseBody.errorMap "Description cannot be empty" "EMPTY_TEXT"⟩ ∧
    ∀ (body2 : Option LanguageDetectionRequest) (req2 : LanguageDetectionRequest),
      sampleExternals.BodyParser body2 = some req2 → req2.Text ≠ [] →
        (detectHandler sampleExternals asciiDetector 0 body2).calls.head? =
          some (Call.DetectLanguageOf []) ∧
        ∀ msg, serveDetect sampleExternals asciiDetector 0 body2 ≠
          ⟨400, ResponseBody.errorMap msg "EMPTY_TEXT"⟩ :=
  ⟨by decide,
    C6_empty_text_rejected_before_truncation sampleExternals asciiDetector (-5)
      (some ⟨goString ""⟩) ⟨goString ""⟩ rfl (by decide)⟩

/-- C7, as stated, fails: `MAX_CHAR_PROCESS="-1"` resolves to the limit -1
and `MAX_CHAR_PROCESS="0"` to the limit 0, neither positive and neither the
default 1000. -/
theorem C7_nonpositive_limit_is_accepted :
    main_maxCharProcess (some (goString "-1")) = -1 ∧
    main_maxCharProcess (some (goString "0")) = 0 ∧
    ¬ (0 < main_maxCharProcess (some (goString "-1"))) ∧
    main_maxCharProcess (some (goString "-1")) ≠ 1000 ∧
    main_maxCharProcess (some (goString "0")) ≠ 1000 := by
  decide

/-- C7, amended: the resolved limit is the value that `strconv.Atoi` reads
from `MAX_CHAR_PROCESS` whenever it reads one, be it positive, zero or
negative, and the default 1000 when the variable is absent, empty or not an
integer; so it is positive exactly when `Atoi` reads no value or a positive
one. A run of decimal digits that fits `int` resolves to its value, and the
same run after a minus sign to the negated value. -/
theorem C7_limit_is_parsed_integer_or_default (MAX_CHAR_PROCESS : Option GoString) :
    (∀ p, Atoi (Getenv MAX_CHAR_PROCESS) = some p → main_maxCharProcess MAX_CHAR_PROCESS = p) ∧
    (Atoi (Getenv MAX_CHAR_PROCESS) = none → main_maxCharProcess MAX_CHAR_PROCESS = 1000) ∧
    ((MAX_CHAR_PROCESS = none ∨ MAX_CHAR_PROCESS = some []) →
      main_maxCharProcess MAX_CHAR_PROCESS = 1000) ∧
    (0 < main_maxCharProcess MAX_CHAR_PROCESS ↔
      ∀ p, Atoi (Getenv MAX_CHAR_PROCESS) = some p → 0 < p) ∧
    (∀ ds : List Nat, ds ≠ [] → (∀ d ∈ ds, d < 10) →
      ds.foldl (fun a d => a * 10 + d) 0 < 2 ^ 63 →
      main_maxCharProcess (some (ds.map (fun d => d + 48))) =
        ((ds.foldl (fun a d => a * 10 + d) 0 : Nat) : Int) ∧
      main_maxCharProcess (some (45 :: ds.map (fun d => d + 48))) =
        -((ds.foldl (fun a d => a * 10 + d) 0 : Nat) : Int)) := by
  have hsome : ∀ (v : Option GoString) (p : Int), Atoi (Getenv v) = some p →
      main_maxCharProcess v = p := by
    intro v p hp
    have hne : Getenv v ≠ [] := by
      intro he
      rw [he] at hp
      cases hp
    simp only [main_maxCharProcess, hne, ne_eq, not_false_eq_true, if_true, hp]
  have hnone : ∀ v : Option GoString, Atoi (Getenv v) = none →
      main_maxCharProcess v = 1000 := by
    intro v hp
    simp only [main_maxCharProcess, hp, DefaultMaxCharProcess]
    split_ifs <;> rfl
  refine ⟨hsome _, hnone _, ?_, ?_, ?_⟩
  · intro h
    apply hnone
    rcases h with rfl | rfl <;> rfl
  · cases hp : Atoi (Getenv MAX_CHAR_PROCESS) with
    | none =>
      rw [hnone _ hp]
      constructor
      · intro _ p h; cases h
      · intro _; decide
    | some p =>
      rw [hsome _ p hp]
      constructor
      · intro h q hq; cases hq; exact h
      · intro h; exact h p rfl
  · intro ds hne hd hfit
    obtain ⟨h1, h2⟩ := Atoi_digits ds hne hd hfit
    exact ⟨hsome (some _) _ h1, hsome (some _) _ h2⟩

/-- C8: at the Japanese text of the test "Unsupported Language", with a
detector that finds no match, the handler answers HTTP 400 with code
DETECTION_FAILED; it does not answer HTTP 200 with language "unknown". -/
theorem C8_unsupported_language_gets_400 :
    serveDetect sampleExternals (constDetector SampleLanguage.Unknown false Float64.zero) 100
        (some ⟨goString "これはソフトウェアエンジニアリングのテストです。"⟩) =
      ⟨400, ResponseBody.errorMap "Could not detect language with sufficient confidence"
        "DETECTION_FAILED"⟩ ∧
    serveDetect sampleExternals (constDetector SampleLanguage.Unknown false Float64.zero) 100
        (some ⟨goString "これはソフトウェアエンジニアリングのテストです。"⟩) ≠
      ⟨200, ResponseBody.detection ⟨goString "unknown", goString "unknown", Float64.zero⟩⟩ := by
  decide

/-- C9: at the English text of the test "Valid English", with a detector
that finds English, the `language` field of the 200 response is "english",
the lower-cased name, and not the ISO 639-1 code "en", which is the value of
`iso_code`. -/
theorem C9_language_field_is_the_name :
    serveDetect sampleExternals (constDetector SampleLanguage.English true ⟨1⟩) 100
        (some ⟨goString "Hello, this is a software engineering test."⟩) =
      ⟨200, ResponseBody.detection ⟨goString "en", goString "english", ⟨1⟩⟩⟩ ∧
    goString "english" ≠ goString "en" := by
  decide

/-- C10: for a non-empty request text, the slice `runes[:maxCharProcess]` is
not taken or is within bounds exactly when `maxCharProcess >= 0`. For a limit
that is not negative the handler does not panic and the detector receives
`min(len(runes), maxCharProcess)` code points; for a negative limit the guard
`len(runes) > maxCharProcess` holds, the slice bound is out of range and the
handler panics before the detector is called. `MAX_CHAR_PROCESS="-1"` resolves
to such a limit. -/
theorem C10_slice_in_bounds_iff_limit_nonnegative {Body Lang : Type}
    (ext : Externals Body Lang) (det : LanguageDetector Lang) (maxCharProcess : Int)
    (body : Body) (req : LanguageDetectionRequest)
    (hparse : ext.BodyParser body = some req) (hne : req.Text ≠ []) :
    ((¬ (maxCharProcess < ((stringToRunes req.Text).length : Int)) ∨
        (sliceTo (stringToRunes req.Text) maxCharProcess).isSome = true) ↔
      0 ≤ maxCharProcess) ∧
    (0 ≤ maxCharProcess →
      ∃ t, textToProcess maxCharProcess req.Text = some t ∧
        (stringToRunes t).length = min (stringToRunes req.Text).length maxCharProcess.toNat ∧
        (detectHandler ext det maxCharProcess body).calls.head? =
          some (Call.DetectLanguageOf t) ∧
        (detectHandler ext det maxCharProcess body).outcome ≠ Outcome.panicked) ∧
    (maxCharProcess < 0 →
      maxCharProcess < ((stringToRunes req.Text).length : Int) ∧
      sliceTo (stringToRunes req.Text) maxCharProcess = none ∧
      detectHandler ext det maxCharProcess body = ⟨[], Outcome.panicked⟩ ∧
      serveDetect ext det maxCharProcess body = ⟨500, ResponseBody.errorText⟩) ∧
    main_maxCharProcess (some (goString "-1")) = -1 := by
  refine ⟨?_, ?_, ?_, by decide⟩
  · constructor
    · intro h
      by_contra hneg
      rcases h with h | h
      · omega
      · have : sliceTo (stringToRunes req.Text) maxCharProcess = none := by
          simp only [sliceTo]
          rw [if_neg (by omega)]
        rw [this] at h
        cases h
    · intro h0
      by_cases hg : maxCharProcess < ((stringToRunes req.Text).length : Int)
      · right
        simp only [sliceTo]
        rw [if_pos ⟨h0, by omega⟩]
        rfl
      · exact Or.inl hg
  · intro h0
    by_cases hg : maxCharProcess < ((stringToRunes req.Text).length : Int)
    · have ht := textToProcess_of_gt maxCharProcess req.Text h0 hg
      refine ⟨_, ht, ?_, (head_text_of_found ext det _ body req _ hparse hne ht).1, ?_⟩
      · rw [stringToRunes_truncated, List.length_take, Nat.min_comm]
      · cases hf : (det.DetectLanguageOf
            (runesToString ((stringToRunes req.Text).take maxCharProcess.toNat))).2 with
        | true =>
          cases hj : jsonEncodable (det.ComputeLanguageConfidence (runesToString ((stringToRunes req.Text).take maxCharProcess.toNat))
              (det.DetectLanguageOf (runesToString ((stringToRunes req.Text).take maxCharProcess.toNat))).1) with
          | true =>
            rw [detectHandler_of_found ext det _ body req _ hparse hne ht hf hj]
            intro h; cases h
          | false =>
            rw [detectHandler_of_unencodable ext det _ body req _ hparse hne ht hf hj]
            intro h; cases h
        | false =>
          rw [detectHandler_of_not_found ext det _ body req _ hparse hne ht hf]
          intro h; cases h
    · have ht := textToProcess_of_le maxCharProcess req.Text (by omega)
      refine ⟨_, ht, ?_, (head_text_of_found ext det _ body req _ hparse hne ht).1, ?_⟩
      · rw [Nat.min_def, if_pos (by omega)]
      · cases hf : (det.DetectLanguageOf req.Text).2 with
        | true =>
          cases hj : jsonEncodable (det.ComputeLanguageConfidence req.Text
              (det.DetectLanguageOf req.Text).1) with
          | true =>
            rw [detectHandler_of_found ext det _ body req _ hparse hne ht hf hj]
            intro h; cases h
          | false =>
            rw [detectHandler_of_unencodable ext det _ body req _ hparse hne ht hf hj]
            intro h; cases h
        | false =>
          rw [detectHandler_of_not_found ext det _ body req _ hparse hne ht hf]
          intro h; cases h
  · intro hneg
    have ht := textToProcess_of_neg maxCharProcess req.Text hneg
    have hrun := detectHandler_of_panic ext det maxCharProcess body req hparse hne ht
    refine ⟨by omega, ?_, hrun, ?_⟩
    · simp only [sliceTo]
      rw [if_neg (by omega)]
    · simp only [serveDetect, hrun]

/-- C10, at the text "hello" and the limit -1. -/
theorem C10_slice_in_bounds_iff_limit_nonnegative_witness :
    goString "hello" ≠ [] ∧
    ((¬ ((-1 : Int) < ((stringToRunes (goString "hello")).length : Int)) ∨
        (sliceTo (stringToRunes (goString "hello")) (-1)).isSome = true) ↔
      (0 : Int) ≤ -1) ∧
    ((0 : Int) ≤ -1 →
      ∃ t, textToProcess (-1) (goString "hello") = some t ∧
        (stringToRunes t).length =
          min (stringToRunes (goString "hello")).length (-1 : Int).toNat ∧
        (detectHandler sampleExternals asciiDetector (-1)
          (some ⟨goString "hello"⟩)).calls.head? = some (Call.DetectLanguageOf t) ∧
        (detectHandler sampleExternals asciiDetector (-1) (some ⟨goString "hello"⟩)).outcome ≠
          Outcome.panicked) ∧
    ((-1 : Int) < 0 →
      (-1 : Int) < ((stringToRunes (goString "hello")).length : Int) ∧
      sliceTo (stringToRunes (goString "hello")) (-1) = none ∧
      detectHandler sampleExternals asciiDetector (-1) (some ⟨goString "hello"⟩) =
        ⟨[], Outcome.panicked⟩ ∧
      serveDetect sampleExternals asciiDetector (-1) (some ⟨goString "hello"⟩) =
        ⟨500, ResponseBody.errorText⟩) ∧
    main_maxCharProcess (some (goString "-1")) = -1 :=
  ⟨by decide,
    C10_slice_in_bounds_iff_limit_nonnegative sampleExternals asciiDetector (-1)
      (some ⟨goString "hello"⟩) ⟨goString "hello"⟩ rfl (by decide)⟩

end Lexis
